import Mathlib

/-!
Shallow embedding of `components/mbedtls/port/esp32/aes.c` (ESP32
hardware-accelerated AES): the context/key handling, the single-block
hardware operation with its fault-injection checks, and the six mode
drivers (ECB, CBC, CFB128, CFB8, CTR, OFB).

Modelling conventions:
* buffers are `List Nat` of byte values; the C code's 32-bit word accesses
  over 16-byte buffers agree byte-for-byte with this view;
* the opaque hardware block transform is a parameter `hw : List Nat → List Nat`
  (chosen as the encrypt or decrypt direction of a keyed permutation);
* `abort()` is modelled as the distinguished results `BlockRes.aborted` /
  `Option.none`: a computation that aborts never produces a caller-visible
  return value;
* each C entry point returns its C return value together with the final
  contents of every by-reference argument, plus instrumentation recording
  whether the hardware lock was taken (`acquired`), which byte positions
  generated a fresh keystream block (`gens`), and how often the
  no-key-loaded error branch of the block operation fired (`errs`).
-/

namespace EspAes

/-- 16 zero bytes, as produced by `bzero(output, 16)` / `memset(output, 0, 16)`. -/
def zeros16 : List Nat := List.replicate 16 0

/-- Nat-wise XOR of two buffers; the C code XORs 16-byte buffers as four
32-bit words, which coincides with byte-wise XOR. -/
def xor_block (a b : List Nat) : List Nat := List.zipWith (fun x y => x ^^^ y) a b

def ESP_AES_ENCRYPT : Nat := 1

def ESP_AES_DECRYPT : Nat := 0

/-- Return values of the C entry points: `0` or an `MBEDTLS_ERR_AES_*` /
`ERR_ESP_AES_*` error code. -/
inductive RetCode where
  | success
  | invalidKeyLength
  | invalidInputLength
  | badInputData
deriving DecidableEq, Repr

/-- `esp_aes_context`: 32-byte key buffer, length of the stored key in bytes,
and the number of key bytes currently written to the hardware registers. -/
structure esp_aes_context where
  key : List Nat
  key_bytes : Nat
  key_in_hardware : Nat
deriving DecidableEq, Repr

/-- `valid_key_length`. -/
def valid_key_length (ctx : esp_aes_context) : Bool :=
  ctx.key_bytes == 128 / 8 || ctx.key_bytes == 192 / 8 || ctx.key_bytes == 256 / 8

/-- `esp_aes_init`: the context is zeroed. -/
def esp_aes_init : esp_aes_context :=
  { key := List.replicate 32 0, key_bytes := 0, key_in_hardware := 0 }

/-- `esp_aes_setkey`: validates the bit length, then copies `keybits/8` bytes
into the key buffer and marks the hardware copy stale. -/
def esp_aes_setkey (ctx : esp_aes_context) (key : List Nat) (keybits : Nat) :
    RetCode × esp_aes_context :=
  if keybits ≠ 128 ∧ keybits ≠ 192 ∧ keybits ≠ 256 then
    (.invalidKeyLength, ctx)
  else
    (.success,
      { key := key.take (keybits / 8) ++ ctx.key.drop (keybits / 8),
        key_bytes := keybits / 8,
        key_in_hardware := 0 })

/-- `esp_aes_setkey_hardware`: writes `key_bytes/4` words of key into the
hardware registers, bumping `key_in_hardware` by 4 per word, then aborts
(`none`) unless all (at least 16) key bytes were written.  The `mode`
argument selects the hardware direction; the direction itself is carried by
the `hw` parameter of `esp_aes_block`. -/
def esp_aes_setkey_hardware (ctx : esp_aes_context) (mode : Nat) :
    Option esp_aes_context :=
  let _ := mode
  let loaded := 4 * (ctx.key_bytes / 4)
  if loaded < 16 ∨ loaded ≠ ctx.key_bytes then none
  else some { ctx with key_in_hardware := loaded }

/-- Result of `esp_aes_block`: a normal output, the zeroed output of the
no-key-loaded error branch (return `MBEDTLS_ERR_AES_INVALID_INPUT_LENGTH`),
or the zeroed output left behind by the fault-injection `abort()` path, which
never returns control to the caller. -/
inductive BlockRes where
  | ok (out : List Nat)
  | err (out : List Nat)
  | aborted (out : List Nat)
deriving DecidableEq, Repr

def BlockRes.out : BlockRes → List Nat
  | .ok o => o
  | .err o => o
  | .aborted o => o

def BlockRes.isAborted : BlockRes → Bool
  | .aborted _ => true
  | _ => false

def BlockRes.isErr : BlockRes → Bool
  | .err _ => true
  | _ => false

/-- `esp_aes_block`: if the hardware key does not match the context's key
length, zero the output and return the error; otherwise run the hardware
transform and compare the words read back against the input words — if they
are identical, zero the output and abort. -/
def esp_aes_block (hw : List Nat → List Nat) (ctx : esp_aes_context)
    (input : List Nat) : BlockRes :=
  if ctx.key_in_hardware ≠ ctx.key_bytes then .err zeros16
  else
    let out := hw input
    if out = input then .aborted zeros16
    else .ok out

/-- Result of `esp_aes_crypt_ecb`. -/
structure EcbOut where
  ret : RetCode
  ctx : esp_aes_context
  output : List Nat
  acquired : Bool
deriving DecidableEq, Repr

/-- `esp_aes_crypt_ecb`: validate the key length, acquire the hardware,
program the key for the requested direction, run one block. -/
def esp_aes_crypt_ecb (E D : List Nat → List Nat) (ctx : esp_aes_context)
    (mode : Nat) (input : List Nat) : Option EcbOut :=
  if ¬ valid_key_length ctx then
    some { ret := .invalidKeyLength, ctx := ctx, output := [], acquired := false }
  else
    match esp_aes_setkey_hardware { ctx with key_in_hardware := 0 } mode with
    | none => none
    | some ctxH =>
      let hw := if mode == ESP_AES_ENCRYPT then E else D
      match esp_aes_block hw ctxH input with
      | .aborted _ => none
      | .err o =>
        some { ret := .invalidInputLength, ctx := ctxH, output := o, acquired := true }
      | .ok o =>
        some { ret := .success, ctx := ctxH, output := o, acquired := true }

/-- Result of `esp_aes_crypt_cbc`: return value, context, final IV, final
output-buffer contents, number of hardware block operations, number of
no-key-loaded error branches hit, and whether the hardware lock was taken. -/
structure CbcOut where
  ret : RetCode
  ctx : esp_aes_context
  iv : List Nat
  output : List Nat
  blocks : Nat
  errs : Nat
  acquired : Bool
deriving DecidableEq, Repr

/-- CBC decrypt loop body (`mode == ESP_AES_DECRYPT`): save the ciphertext
block, block-decrypt it, XOR with the running IV, and make the saved
ciphertext the next IV.  Fuel `k` is the number of 16-byte blocks. -/
def cbc_dec_loop (hw : List Nat → List Nat) (ctx : esp_aes_context) :
    Nat → List Nat → List Nat → Option (List Nat × List Nat × Nat)
  | 0, _, iv => some ([], iv, 0)
  | k + 1, input, iv =>
    let blk := input.take 16
    let r := esp_aes_block hw ctx blk
    if r.isAborted then none
    else
      match cbc_dec_loop hw ctx k (input.drop 16) blk with
      | none => none
      | some (rest, ivf, e) =>
        some (xor_block r.out iv ++ rest, ivf, (if r.isErr then 1 else 0) + e)

/-- CBC encrypt loop body: XOR the plaintext block with the running IV,
block-encrypt in place, and make the ciphertext the next IV. -/
def cbc_enc_loop (hw : List Nat → List Nat) (ctx : esp_aes_context) :
    Nat → List Nat → List Nat → Option (List Nat × List Nat × Nat)
  | 0, _, iv => some ([], iv, 0)
  | k + 1, input, iv =>
    let r := esp_aes_block hw ctx (xor_block (input.take 16) iv)
    if r.isAborted then none
    else
      match cbc_enc_loop hw ctx k (input.drop 16) r.out with
      | none => none
      | some (rest, ivf, e) =>
        some (r.out ++ rest, ivf, (if r.isErr then 1 else 0) + e)

/-- `esp_aes_crypt_cbc`: rejects a non-multiple-of-16 length before anything
else, validates the key length, then acquires the hardware, programs the key
for the requested direction and runs the per-block loop.  `out0` is the
prior contents of the caller's output buffer. -/
def esp_aes_crypt_cbc (E D : List Nat → List Nat) (ctx : esp_aes_context)
    (mode : Nat) (iv : List Nat) (input : List Nat) (out0 : List Nat) :
    Option CbcOut :=
  if input.length % 16 ≠ 0 then
    some { ret := .invalidInputLength, ctx := ctx, iv := iv, output := out0,
           blocks := 0, errs := 0, acquired := false }
  else if ¬ valid_key_length ctx then
    some { ret := .invalidKeyLength, ctx := ctx, iv := iv, output := out0,
           blocks := 0, errs := 0, acquired := false }
  else
    match esp_aes_setkey_hardware { ctx with key_in_hardware := 0 } mode with
    | none => none
    | some ctxH =>
      let hw := if mode == ESP_AES_ENCRYPT then E else D
      let res :=
        if mode == ESP_AES_DECRYPT then
          cbc_dec_loop hw ctxH (input.length / 16) input iv
        else
          cbc_enc_loop hw ctxH (input.length / 16) input iv
      match res with
      | none => none
      | some (out, ivf, e) =>
        some { ret := .success, ctx := ctxH, iv := ivf,
               output := out ++ out0.drop input.length,
               blocks := input.length / 16, errs := e, acquired := true }

/-- Result of the offset-carrying stream modes (CFB128, OFB): return value,
context, final IV, offset written back, produced output bytes, per-byte
block-generation trace, error-branch count, lock flag. -/
structure StreamOut where
  ret : RetCode
  ctx : esp_aes_context
  iv : List Nat
  n : Nat
  output : List Nat
  gens : List Bool
  errs : Nat
  acquired : Bool
deriving DecidableEq, Repr

/-- CFB128 decrypt loop: when the offset is 0, encrypt the IV in place to get
a fresh keystream block; output byte = ciphertext byte XOR `iv[n]`; the
ciphertext byte is written back into `iv[n]`. -/
def cfb128_dec_loop (hw : List Nat → List Nat) (ctx : esp_aes_context) :
    List Nat → Nat → List Nat →
      Option (List Nat × List Nat × Nat × List Bool × Nat)
  | [], n, iv => some ([], iv, n, [], 0)
  | c :: rest, n, iv =>
    let step : Option (List Nat × Bool × Nat) :=
      if n = 0 then
        let r := esp_aes_block hw ctx iv
        if r.isAborted then none
        else some (r.out, true, if r.isErr then 1 else 0)
      else some (iv, false, 0)
    match step with
    | none => none
    | some (iv1, g, e1) =>
      match cfb128_dec_loop hw ctx rest ((n + 1) &&& 0x0F) (iv1.set n c) with
      | none => none
      | some (os, ivf, nf, gs, e) =>
        some ((c ^^^ iv1.getD n 0) :: os, ivf, nf, g :: gs, e1 + e)

/-- CFB128 encrypt loop: output byte = `iv[n]` XOR plaintext byte, and that
ciphertext byte is written back into `iv[n]`. -/
def cfb128_enc_loop (hw : List Nat → List Nat) (ctx : esp_aes_context) :
    List Nat → Nat → List Nat →
      Option (List Nat × List Nat × Nat × List Bool × Nat)
  | [], n, iv => some ([], iv, n, [], 0)
  | b :: rest, n, iv =>
    let step : Option (List Nat × Bool × Nat) :=
      if n = 0 then
        let r := esp_aes_block hw ctx iv
        if r.isAborted then none
        else some (r.out, true, if r.isErr then 1 else 0)
      else some (iv, false, 0)
    match step with
    | none => none
    | some (iv1, g, e1) =>
      let t := (iv1.getD n 0 ^^^ b)
      match cfb128_enc_loop hw ctx rest ((n + 1) &&& 0x0F) (iv1.set n t) with
      | none => none
      | some (os, ivf, nf, gs, e) =>
        some (t :: os, ivf, nf, g :: gs, e1 + e)

/-- `esp_aes_crypt_cfb128`: always programs the hardware for the encrypt
direction, then runs the per-byte loop for the requested logical mode. -/
def esp_aes_crypt_cfb128 (E D : List Nat → List Nat) (ctx : esp_aes_context)
    (mode : Nat) (iv_off : Nat) (iv : List Nat) (input : List Nat) :
    Option StreamOut :=
  let _ := D
  if ¬ valid_key_length ctx then
    some { ret := .invalidKeyLength, ctx := ctx, iv := iv, n := iv_off,
           output := [], gens := [], errs := 0, acquired := false }
  else
    match esp_aes_setkey_hardware { ctx with key_in_hardware := 0 } ESP_AES_ENCRYPT with
    | none => none
    | some ctxH =>
      let res :=
        if mode == ESP_AES_DECRYPT then cfb128_dec_loop E ctxH input iv_off iv
        else cfb128_enc_loop E ctxH input iv_off iv
      match res with
      | none => none
      | some (out, ivf, nf, gs, e) =>
        some { ret := .success, ctx := ctxH, iv := ivf, n := nf, output := out,
               gens := gs, errs := e, acquired := true }

/-- Result of `esp_aes_crypt_cfb8` (no offset in the chaining state). -/
structure Cfb8Out where
  ret : RetCode
  ctx : esp_aes_context
  iv : List Nat
  output : List Nat
  errs : Nat
  acquired : Bool
deriving DecidableEq, Repr

/-- CFB8 loop: every byte encrypts the whole 16-byte IV; output byte =
keystream[0] XOR input byte; the IV shifts left one byte and the fed-back
byte is appended — the input (ciphertext) byte when decrypting, the produced
ciphertext byte when encrypting. -/
def cfb8_loop (hw : List Nat → List Nat) (ctx : esp_aes_context) (mode : Nat) :
    List Nat → List Nat → Option (List Nat × List Nat × Nat)
  | [], iv => some ([], iv, 0)
  | b :: rest, iv =>
    let r := esp_aes_block hw ctx iv
    if r.isAborted then none
    else
      let c := (r.out.getD 0 0 ^^^ b)
      let fb := if mode == ESP_AES_DECRYPT then b else c
      match cfb8_loop hw ctx mode rest (iv.drop 1 ++ [fb]) with
      | none => none
      | some (os, ivf, e) =>
        some (c :: os, ivf, (if r.isErr then 1 else 0) + e)

/-- `esp_aes_crypt_cfb8`: always programs the hardware for the encrypt
direction. -/
def esp_aes_crypt_cfb8 (E D : List Nat → List Nat) (ctx : esp_aes_context)
    (mode : Nat) (iv : List Nat) (input : List Nat) : Option Cfb8Out :=
  let _ := D
  if ¬ valid_key_length ctx then
    some { ret := .invalidKeyLength, ctx := ctx, iv := iv, output := [],
           errs := 0, acquired := false }
  else
    match esp_aes_setkey_hardware { ctx with key_in_hardware := 0 } ESP_AES_ENCRYPT with
    | none => none
    | some ctxH =>
      match cfb8_loop E ctxH mode input iv with
      | none => none
      | some (out, ivf, e) =>
        some { ret := .success, ctx := ctxH, iv := ivf, output := out,
               errs := e, acquired := true }

/-- One step of the C counter-increment loop `for (i = 16; i > 0; i--)
if (++nonce_counter[i-1] != 0) break;`, acting on the reversed byte list. -/
def ctr_inc_rev : List Nat → List Nat
  | [] => []
  | b :: rest =>
    let b1 := (b + 1) % 256
    if b1 = 0 then 0 :: ctr_inc_rev rest else b1 :: rest

/-- Big-endian increment of the 16-byte nonce counter, exactly as the C loop
performs it (increment the last byte, carry leftward on wrap to zero). -/
def ctr_inc (l : List Nat) : List Nat := (ctr_inc_rev l.reverse).reverse

/-- Result of `esp_aes_crypt_ctr`. -/
structure CtrOut where
  ret : RetCode
  ctx : esp_aes_context
  nonce_counter : List Nat
  stream_block : List Nat
  n : Nat
  output : List Nat
  gens : List Bool
  errs : Nat
  acquired : Bool
deriving DecidableEq, Repr

/-- CTR loop: when the offset is 0, encrypt the counter into the stream
block and increment the counter; output byte = input byte XOR
`stream_block[n]`. -/
def ctr_loop (hw : List Nat → List Nat) (ctx : esp_aes_context) :
    List Nat → Nat → List Nat → List Nat →
      Option (List Nat × List Nat × List Nat × Nat × List Bool × Nat)
  | [], n, nc, sb => some ([], nc, sb, n, [], 0)
  | b :: rest, n, nc, sb =>
    let step : Option (List Nat × List Nat × Bool × Nat) :=
      if n = 0 then
        let r := esp_aes_block hw ctx nc
        if r.isAborted then none
        else some (ctr_inc nc, r.out, true, if r.isErr then 1 else 0)
      else some (nc, sb, false, 0)
    match step with
    | none => none
    | some (nc1, sb1, g, e1) =>
      match ctr_loop hw ctx rest ((n + 1) &&& 0x0F) nc1 sb1 with
      | none => none
      | some (os, ncf, sbf, nf, gs, e) =>
        some ((b ^^^ sb1.getD n 0) :: os, ncf, sbf, nf, g :: gs, e1 + e)

/-- `esp_aes_crypt_ctr`: no mode argument; the hardware is always programmed
for the encrypt direction. -/
def esp_aes_crypt_ctr (E D : List Nat → List Nat) (ctx : esp_aes_context)
    (nc_off : Nat) (nonce_counter stream_block : List Nat) (input : List Nat) :
    Option CtrOut :=
  let _ := D
  if ¬ valid_key_length ctx then
    some { ret := .invalidKeyLength, ctx := ctx, nonce_counter := nonce_counter,
           stream_block := stream_block, n := nc_off, output := [], gens := [],
           errs := 0, acquired := false }
  else
    match esp_aes_setkey_hardware { ctx with key_in_hardware := 0 } ESP_AES_ENCRYPT with
    | none => none
    | some ctxH =>
      match ctr_loop E ctxH input nc_off nonce_counter stream_block with
      | none => none
      | some (out, ncf, sbf, nf, gs, e) =>
        some { ret := .success, ctx := ctxH, nonce_counter := ncf,
               stream_block := sbf, n := nf, output := out, gens := gs,
               errs := e, acquired := true }

/-- OFB loop: when the offset is 0, encrypt the IV in place (the keystream
feeds back into itself); output byte = input byte XOR `iv[n]`. -/
def ofb_loop (hw : List Nat → List Nat) (ctx : esp_aes_context) :
    List Nat → Nat → List Nat →
      Option (List Nat × List Nat × Nat × List Bool × Nat)
  | [], n, iv => some ([], iv, n, [], 0)
  | b :: rest, n, iv =>
    let step : Option (List Nat × Bool × Nat) :=
      if n = 0 then
        let r := esp_aes_block hw ctx iv
        if r.isAborted then none
        else some (r.out, true, if r.isErr then 1 else 0)
      else some (iv, false, 0)
    match step with
    | none => none
    | some (iv1, g, e1) =>
      match ofb_loop hw ctx rest ((n + 1) &&& 0x0F) iv1 with
      | none => none
      | some (os, ivf, nf, gs, e) =>
        some ((b ^^^ iv1.getD n 0) :: os, ivf, nf, g :: gs, e1 + e)

/-- `esp_aes_crypt_ofb`: the only driver that checks its pointer arguments
for null (modelled as `Option` arguments, `ooutput` standing for the output
pointer) and range-checks the offset, both before the key-length check and
before any hardware interaction. -/
def esp_aes_crypt_ofb (E D : List Nat → List Nat)
    (octx : Option esp_aes_context) (oiv_off : Option Nat)
    (oiv : Option (List Nat)) (oinput : Option (List Nat))
    (ooutput : Option Unit) : Option StreamOut :=
  let _ := D
  match octx, oiv_off, oiv, oinput, ooutput with
  | some ctx, some n, some iv, some input, some _ =>
    if n > 15 then
      some { ret := .badInputData, ctx := ctx, iv := iv, n := n, output := [],
             gens := [], errs := 0, acquired := false }
    else if ¬ valid_key_length ctx then
      some { ret := .invalidKeyLength, ctx := ctx, iv := iv, n := n,
             output := [], gens := [], errs := 0, acquired := false }
    else
      match esp_aes_setkey_hardware ctx ESP_AES_ENCRYPT with
      | none => none
      | some ctxH =>
        match ofb_loop E ctxH input n iv with
        | none => none
        | some (out, ivf, nf, gs, e) =>
          some { ret := .success, ctx := ctxH, iv := ivf, n := nf,
                 output := out, gens := gs, errs := e, acquired := true }
  | octx, oiv_off, oiv, _, _ =>
    some { ret := .badInputData, ctx := octx.getD esp_aes_init,
           iv := (oiv.getD []), n := oiv_off.getD 0, output := [], gens := [],
           errs := 0, acquired := false }

/-! ### Spec-side definitions -/

/-- Modelled from the spec: the CBC decryption recurrence as the spec states
it — "save ciphertext block, block-decrypt it, XOR with running IV, running
IV becomes the saved ciphertext (pre-decryption) block".  Used to compare
the implementation's decrypt loop against the spec's words. -/
def cbcDecryptSpec (D : List Nat → List Nat) :
    Nat → List Nat → List Nat → List Nat × List Nat
  | 0, _, iv => ([], iv)
  | k + 1, ct, iv =>
    let c := ct.take 16
    let p := cbcDecryptSpec D k (ct.drop 16) c
    (xor_block (D c) iv ++ p.1, p.2)

/-- Little-endian value of a byte list (head is the least significant byte). -/
def leVal : List Nat → Nat
  | [] => 0
  | b :: rest => b + 256 * leVal rest

/-- Big-endian value of a byte list, as the spec reads the 16-byte counter. -/
def beVal (l : List Nat) : Nat := leVal l.reverse

/-- A concrete fixed-point-free involutive "keyed permutation" used to
instantiate the hardware transform in witnesses: flip the low bit of every
byte. -/
def exaes (b : List Nat) : List Nat := b.map (fun x => x ^^^ 1)

/-- A concrete AES-128 context holding a 16-byte key. -/
def exCtx : esp_aes_context :=
  { key := List.replicate 16 43, key_bytes := 16, key_in_hardware := 0 }

/-! ### Helper lemmas -/

lemma and15_eq_mod (m : Nat) : m &&& 15 = m % 16 := by
  have h := Nat.and_pow_two_sub_one_eq_mod m 4
  norm_num at h
  exact h

lemma xor_one_ne (x : Nat) : x ^^^ 1 ≠ x := by
  intro hx
  have h1 : (x ^^^ 1) ^^^ x = 1 := by
    rw [Nat.xor_comm x 1]
    exact Nat.xor_cancel_right x 1
  rw [hx, Nat.xor_self] at h1
  exact absurd h1 (by decide)

lemma exaes_exaes (b : List Nat) : exaes (exaes b) = b := by
  simp [exaes, List.map_map, Function.comp_def, Nat.xor_cancel_right]

lemma exaes_length (b : List Nat) : (exaes b).length = b.length := by
  simp [exaes]

lemma exaes_ne (b : List Nat) (h : b.length = 16) : exaes b ≠ b := by
  cases b with
  | nil => simp at h
  | cons x xs =>
    intro heq
    rw [exaes, List.map_cons] at heq
    exact xor_one_ne x (List.head_eq_of_cons_eq heq)

lemma xor_block_cancel (a b : List Nat) (h : a.length = b.length) :
    xor_block (xor_block a b) b = a := by
  induction a generalizing b with
  | nil => simp [xor_block]
  | cons x xs ih =>
    cases b with
    | nil => simp at h
    | cons y ys =>
      simp only [List.length_cons] at h
      simp only [xor_block, List.zipWith_cons_cons, List.cons.injEq]
      exact ⟨Nat.xor_cancel_right y x, ih ys (by omega)⟩

lemma xor_block_length (a b : List Nat) :
    (xor_block a b).length = min a.length b.length := by
  simp [xor_block]

lemma valid_key_cases (ctx : esp_aes_context) (h : valid_key_length ctx = true) :
    ctx.key_bytes = 16 ∨ ctx.key_bytes = 24 ∨ ctx.key_bytes = 32 := by
  simp only [valid_key_length, Bool.or_eq_true, beq_iff_eq] at h
  norm_num at h
  omega

lemma valid_key_length_update (ctx : esp_aes_context) (k : Nat) :
    valid_key_length { ctx with key_in_hardware := k } = valid_key_length ctx := rfl

/-- With a valid key length, `esp_aes_setkey_hardware` never aborts and
leaves `key_in_hardware = key_bytes`. -/
lemma setkey_hardware_valid (ctx : esp_aes_context) (mode : Nat)
    (h : valid_key_length ctx = true) :
    esp_aes_setkey_hardware ctx mode =
      some { ctx with key_in_hardware := ctx.key_bytes } := by
  rcases valid_key_cases ctx h with h' | h' | h' <;>
    simp [esp_aes_setkey_hardware, h']

lemma esp_aes_block_ok (hw : List Nat → List Nat) (ctx : esp_aes_context)
    (input : List Nat) (hk : ctx.key_in_hardware = ctx.key_bytes)
    (hnf : hw input ≠ input) :
    esp_aes_block hw ctx input = .ok (hw input) := by
  simp [esp_aes_block, hk, hnf]

lemma esp_aes_block_not_err (hw : List Nat → List Nat) (ctx : esp_aes_context)
    (input : List Nat) (hk : ctx.key_in_hardware = ctx.key_bytes) :
    (esp_aes_block hw ctx input).isErr = false := by
  simp only [esp_aes_block, hk, ne_eq, not_true_eq_false, if_false]
  split <;> rfl

/-! ### Claim C2: fault-injection sentinel in the single-block operation -/

/-- Claim C2: whenever the single-block operation reaches the hardware (the
key is loaded) and the words read back equal the input words, the engine
leaves the 16-byte output buffer zeroed and aborts (`BlockRes.aborted`, the
terminal result that never returns control to the caller). -/
theorem claim_C2_fault_sentinel (hw : List Nat → List Nat)
    (ctx : esp_aes_context) (input : List Nat)
    (hk : ctx.key_in_hardware = ctx.key_bytes) (hfault : hw input = input) :
    esp_aes_block hw ctx input = .aborted zeros16 := by
  simp [esp_aes_block, hk, hfault]

/-- Witness for claim C2: a stub hardware transform that returns its input
makes the block operation abort with a zeroed output buffer. -/
theorem claim_C2_fault_sentinel_witness :
    esp_aes_block (fun b => b) { exCtx with key_in_hardware := 16 } zeros16 =
      .aborted zeros16 :=
  claim_C2_fault_sentinel (fun b => b) { exCtx with key_in_hardware := 16 }
    zeros16 (by decide) rfl

/-! ### Claim C6: key length validation in `esp_aes_setkey` -/

/-- Claim C6: `esp_aes_setkey` with a bit length other than 128/192/256
returns `invalidKeyLength` and leaves the context (stored key bytes, key
length, hardware-loaded flag) exactly as it was; with an accepted length it
stores `keybits/8` key bytes and clears `key_in_hardware`. -/
theorem claim_C6_setkey_validation (ctx : esp_aes_context) (key : List Nat)
    (keybits : Nat) :
    (keybits ≠ 128 ∧ keybits ≠ 192 ∧ keybits ≠ 256 →
      esp_aes_setkey ctx key keybits = (.invalidKeyLength, ctx)) ∧
    (keybits = 128 ∨ keybits = 192 ∨ keybits = 256 →
      esp_aes_setkey ctx key keybits =
        (.success,
          { key := key.take (keybits / 8) ++ ctx.key.drop (keybits / 8),
            key_bytes := keybits / 8, key_in_hardware := 0 })) := by
  constructor
  · intro h
    simp [esp_aes_setkey, h]
  · intro h
    have h' : ¬ (keybits ≠ 128 ∧ keybits ≠ 192 ∧ keybits ≠ 256) := by tauto
    simp [esp_aes_setkey, h']

/-- Witness for claim C6: bit length 100 is rejected without touching the
context; bit length 128 stores the 16 key bytes and clears the
hardware-loaded flag. -/
theorem claim_C6_setkey_validation_witness :
    esp_aes_setkey exCtx (List.replicate 16 7) 100 = (.invalidKeyLength, exCtx) ∧
    esp_aes_setkey exCtx (List.replicate 16 7) 128 =
      (.success,
        { key := (List.replicate 16 7).take (128 / 8) ++ exCtx.key.drop (128 / 8),
          key_bytes := 128 / 8, key_in_hardware := 0 }) :=
  ⟨(claim_C6_setkey_validation exCtx (List.replicate 16 7) 100).1 (by decide),
   (claim_C6_setkey_validation exCtx (List.replicate 16 7) 128).2 (Or.inl rfl)⟩

/-! ### Claim C7: CBC input length validation -/

/-- Claim C7: for every input whose length is not a multiple of 16, CBC
returns `invalidInputLength` without acquiring the hardware lock
(`acquired = false`), without performing any hardware block operation
(`blocks = 0`), and with the IV and output buffer unchanged. -/
theorem claim_C7_cbc_length_validation (E D : List Nat → List Nat)
    (ctx : esp_aes_context) (mode : Nat) (iv input out0 : List Nat)
    (h : input.length % 16 ≠ 0) :
    esp_aes_crypt_cbc E D ctx mode iv input out0 =
      some { ret := .invalidInputLength, ctx := ctx, iv := iv, output := out0,
             blocks := 0, errs := 0, acquired := false } := by
  simp [esp_aes_crypt_cbc, h]

/-- Witness for claim C7: a 15-byte input is rejected with no hardware
interaction and unchanged buffers. -/
theorem claim_C7_cbc_length_validation_witness :
    esp_aes_crypt_cbc exaes exaes exCtx ESP_AES_ENCRYPT zeros16
      (List.replicate 15 3) (List.replicate 15 9) =
      some { ret := .invalidInputLength, ctx := exCtx, iv := zeros16,
             output := List.replicate 15 9, blocks := 0, errs := 0,
             acquired := false } :=
  claim_C7_cbc_length_validation exaes exaes exCtx ESP_AES_ENCRYPT zeros16
    (List.replicate 15 3) (List.replicate 15 9) (by decide)

/-! ### Claim C9: OFB-only argument validation -/

/-- Claim C9: only OFB among the six modes rejects with `badInputData`; OFB
rejects any null argument (context, offset pointer, IV, input, output) and
any offset greater than 15, in both cases before acquiring the hardware lock
or generating any keystream block, while no other mode ever returns
`badInputData`. -/
theorem claim_C9_ofb_only_validation :
    (∀ (E D : List Nat → List Nat) octx onn oiv oin oout,
       octx = none ∨ onn = none ∨ oiv = none ∨ oin = none ∨ oout = none →
       ∃ r, esp_aes_crypt_ofb E D octx onn oiv oin oout = some r ∧
         r.ret = .badInputData ∧ r.acquired = false ∧ r.gens = []) ∧
    (∀ (E D : List Nat → List Nat) ctx n iv input, 15 < n →
       esp_aes_crypt_ofb E D (some ctx) (some n) (some iv) (some input) (some ()) =
         some { ret := .badInputData, ctx := ctx, iv := iv, n := n, output := [],
                gens := [], errs := 0, acquired := false }) ∧
    (∀ (E D : List Nat → List Nat) ctx mode input r,
       esp_aes_crypt_ecb E D ctx mode input = some r → r.ret ≠ .badInputData) ∧
    (∀ (E D : List Nat → List Nat) ctx mode iv input out0 r,
       esp_aes_crypt_cbc E D ctx mode iv input out0 = some r →
         r.ret ≠ .badInputData) ∧
    (∀ (E D : List Nat → List Nat) ctx mode iv_off iv input r,
       esp_aes_crypt_cfb128 E D ctx mode iv_off iv input = some r →
         r.ret ≠ .badInputData) ∧
    (∀ (E D : List Nat → List Nat) ctx mode iv input r,
       esp_aes_crypt_cfb8 E D ctx mode iv input = some r →
         r.ret ≠ .badInputData) ∧
    (∀ (E D : List Nat → List Nat) ctx nc_off nc sb input r,
       esp_aes_crypt_ctr E D ctx nc_off nc sb input = some r →
         r.ret ≠ .badInputData) := by
  refine ⟨?_, ?_, ?_, ?_, ?_, ?_, ?_⟩
  · intro E D octx onn oiv oin oout h
    match octx, onn, oiv, oin, oout with
    | none, _, _, _, _ => exact ⟨_, rfl, rfl, rfl, rfl⟩
    | some _, none, _, _, _ => exact ⟨_, rfl, rfl, rfl, rfl⟩
    | some _, some _, none, _, _ => exact ⟨_, rfl, rfl, rfl, rfl⟩
    | some _, some _, some _, none, _ => exact ⟨_, rfl, rfl, rfl, rfl⟩
    | some _, some _, some _, some _, none => exact ⟨_, rfl, rfl, rfl, rfl⟩
    | some _, some _, some _, some _, some _ => simp at h
  · intro E D ctx n iv input hn
    have h15 : n > 15 := hn
    simp [esp_aes_crypt_ofb, h15]
  · intro E D ctx mode input r hr
    unfold esp_aes_crypt_ecb at hr
    repeat' split at hr
    all_goals try dsimp only [] at hr
    repeat' split at hr
    all_goals try simp at hr
    all_goals (cases hr; simp)
  · intro E D ctx mode iv input out0 r hr
    unfold esp_aes_crypt_cbc at hr
    repeat' split at hr
    all_goals try dsimp only [] at hr
    repeat' split at hr
    all_goals try simp at hr
    all_goals (cases hr; simp)
  · intro E D ctx mode iv_off iv input r hr
    unfold esp_aes_crypt_cfb128 at hr
    repeat' split at hr
    all_goals try dsimp only [] at hr
    repeat' split at hr
    all_goals try simp at hr
    all_goals (cases hr; simp)
  · intro E D ctx mode iv input r hr
    unfold esp_aes_crypt_cfb8 at hr
    repeat' split at hr
    all_goals try dsimp only [] at hr
    repeat' split at hr
    all_goals try simp at hr
    all_goals (cases hr; simp)
  · intro E D ctx nc_off nc sb input r hr
    unfold esp_aes_crypt_ctr at hr
    repeat' split at hr
    all_goals try dsimp only [] at hr
    repeat' split at hr
    all_goals try simp at hr
    all_goals (cases hr; simp)

/-- Witness for claim C9: a null context and an offset of 16 are rejected by
OFB; concrete successful runs of the other five modes do not produce
`badInputData`. -/
theorem claim_C9_ofb_only_validation_witness :
    (∃ r, esp_aes_crypt_ofb exaes exaes none (some 0) (some zeros16) (some [])
        (some ()) = some r ∧
        r.ret = .badInputData ∧ r.acquired = false ∧ r.gens = []) ∧
    (esp_aes_crypt_ofb exaes exaes (some exCtx) (some 16) (some zeros16)
        (some []) (some ()) =
      some { ret := .badInputData, ctx := exCtx, iv := zeros16, n := 16,
             output := [], gens := [], errs := 0, acquired := false }) ∧
    (∀ r, esp_aes_crypt_ecb exaes exaes exCtx ESP_AES_ENCRYPT zeros16 = some r →
       r.ret ≠ .badInputData) ∧
    (∀ r, esp_aes_crypt_cbc exaes exaes exCtx ESP_AES_ENCRYPT zeros16 [] [] =
        some r → r.ret ≠ .badInputData) ∧
    (∀ r, esp_aes_crypt_cfb128 exaes exaes exCtx ESP_AES_ENCRYPT 0 zeros16 [] =
        some r → r.ret ≠ .badInputData) ∧
    (∀ r, esp_aes_crypt_cfb8 exaes exaes exCtx ESP_AES_ENCRYPT zeros16 [] =
        some r → r.ret ≠ .badInputData) ∧
    (∀ r, esp_aes_crypt_ctr exaes exaes exCtx 0 zeros16 zeros16 [] = some r →
       r.ret ≠ .badInputData) :=
  ⟨claim_C9_ofb_only_validation.1 exaes exaes none (some 0) (some zeros16)
      (some []) (some ()) (Or.inl rfl),
   claim_C9_ofb_only_validation.2.1 exaes exaes exCtx 16 zeros16 [] (by decide),
   fun r => claim_C9_ofb_only_validation.2.2.1 exaes exaes exCtx ESP_AES_ENCRYPT
      zeros16 r,
   fun r => claim_C9_ofb_only_validation.2.2.2.1 exaes exaes exCtx ESP_AES_ENCRYPT
      zeros16 [] [] r,
   fun r => claim_C9_ofb_only_validation.2.2.2.2.1 exaes exaes exCtx
      ESP_AES_ENCRYPT 0 zeros16 [] r,
   fun r => claim_C9_ofb_only_validation.2.2.2.2.2.1 exaes exaes exCtx
      ESP_AES_ENCRYPT zeros16 [] r,
   fun r => claim_C9_ofb_only_validation.2.2.2.2.2.2 exaes exaes exCtx 0 zeros16
      zeros16 [] r⟩

/-! ### Claim C3: CBC decrypt chaining semantics -/

/-- With the key loaded and a fixed-point-free block decryption, the CBC
decrypt loop computes exactly the spec's recurrence and hits no error
branch. -/
lemma cbc_dec_loop_spec (D : List Nat → List Nat) (ctx : esp_aes_context)
    (hk : ctx.key_in_hardware = ctx.key_bytes)
    (hnfD : ∀ b, b.length = 16 → D b ≠ b) :
    ∀ k ct iv, ct.length = 16 * k →
      cbc_dec_loop D ctx k ct iv =
        some ((cbcDecryptSpec D k ct iv).1, (cbcDecryptSpec D k ct iv).2, 0) := by
  intro k
  induction k with
  | zero =>
    intro ct iv _
    simp [cbc_dec_loop, cbcDecryptSpec]
  | succ k ih =>
    intro ct iv h
    have hblk : (ct.take 16).length = 16 := by
      simp only [List.length_take]
      omega
    have hdrop : (ct.drop 16).length = 16 * k := by
      simp only [List.length_drop]
      omega
    simp only [cbc_dec_loop, cbcDecryptSpec,
      esp_aes_block_ok D ctx (ct.take 16) hk (hnfD (ct.take 16) hblk),
      BlockRes.isAborted, BlockRes.out, BlockRes.isErr,
      ih (ct.drop 16) (ct.take 16) hdrop]
    simp

/-- Claim C3: in CBC decryption of a block-multiple input, every output
block is the block-decryption of the corresponding ciphertext block XORed
with the running IV, and the running IV is replaced by the pre-decryption
ciphertext block, for every number of blocks — i.e. the driver computes
`cbcDecryptSpec`, the recurrence stated by the spec. -/
theorem claim_C3_cbc_decrypt_chaining (E D : List Nat → List Nat)
    (ctx : esp_aes_context) (iv ct out0 : List Nat)
    (hk : valid_key_length ctx = true)
    (hnfD : ∀ b, b.length = 16 → D b ≠ b)
    (hlen : ct.length % 16 = 0) :
    esp_aes_crypt_cbc E D ctx ESP_AES_DECRYPT iv ct out0 =
      some { ret := .success,
             ctx := { ctx with key_in_hardware := ctx.key_bytes },
             iv := (cbcDecryptSpec D (ct.length / 16) ct iv).2,
             output := (cbcDecryptSpec D (ct.length / 16) ct iv).1 ++
               out0.drop ct.length,
             blocks := ct.length / 16, errs := 0, acquired := true } := by
  have hmul : ct.length = 16 * (ct.length / 16) := by omega
  have hloop := cbc_dec_loop_spec D { ctx with key_in_hardware := ctx.key_bytes }
    rfl hnfD (ct.length / 16) ct iv hmul
  simp [esp_aes_crypt_cbc, hlen, hk, setkey_hardware_valid,
    valid_key_length_update, ESP_AES_DECRYPT, ESP_AES_ENCRYPT, hloop]

/-- Witness for claim C3: a concrete two-block CBC decryption follows the
spec's recurrence. -/
theorem claim_C3_cbc_decrypt_chaining_witness :
    esp_aes_crypt_cbc exaes exaes exCtx ESP_AES_DECRYPT zeros16
        (List.replicate 32 5) (List.replicate 32 0) =
      some { ret := .success,
             ctx := { exCtx with key_in_hardware := exCtx.key_bytes },
             iv := (cbcDecryptSpec exaes ((List.replicate 32 5).length / 16)
               (List.replicate 32 5) zeros16).2,
             output := (cbcDecryptSpec exaes ((List.replicate 32 5).length / 16)
               (List.replicate 32 5) zeros16).1 ++
               (List.replicate 32 0).drop (List.replicate 32 5).length,
             blocks := (List.replicate 32 5).length / 16, errs := 0,
             acquired := true } :=
  claim_C3_cbc_decrypt_chaining exaes exaes exCtx zeros16 (List.replicate 32 5)
    (List.replicate 32 0) (by decide) (fun b hb => exaes_ne b hb) (by decide)

/-! ### Claim C10: the no-key-loaded branch is unreachable in the drivers -/

lemma cbc_dec_loop_errs (hw : List Nat → List Nat) (ctx : esp_aes_context)
    (hk : ctx.key_in_hardware = ctx.key_bytes) :
    ∀ k input iv out ivf e,
      cbc_dec_loop hw ctx k input iv = some (out, ivf, e) → e = 0 := by
  intro k
  induction k with
  | zero =>
    intro input iv out ivf e h
    simp only [cbc_dec_loop, Option.some.injEq, Prod.mk.injEq] at h
    exact h.2.2.symm
  | succ k ih =>
    intro input iv out ivf e h
    rw [cbc_dec_loop] at h
    try dsimp only [] at h
    rw [esp_aes_block_not_err hw ctx (input.take 16) hk] at h
    split at h
    · simp at h
    · split at h
      · simp at h
      · rename_i rest ivf2 e2 heq
        simp only [Option.some.injEq, Prod.mk.injEq] at h
        obtain ⟨-, -, he⟩ := h
        simp only [Bool.false_eq_true, if_false] at he
        have := ih _ _ _ _ _ heq
        omega

lemma cbc_enc_loop_errs (hw : List Nat → List Nat) (ctx : esp_aes_context)
    (hk : ctx.key_in_hardware = ctx.key_bytes) :
    ∀ k input iv out ivf e,
      cbc_enc_loop hw ctx k input iv = some (out, ivf, e) → e = 0 := by
  intro k
  induction k with
  | zero =>
    intro input iv out ivf e h
    simp only [cbc_enc_loop, Option.some.injEq, Prod.mk.injEq] at h
    exact h.2.2.symm
  | succ k ih =>
    intro input iv out ivf e h
    rw [cbc_enc_loop] at h
    try dsimp only [] at h
    rw [esp_aes_block_not_err hw ctx (xor_block (input.take 16) iv) hk] at h
    split at h
    · simp at h
    · split at h
      · simp at h
      · rename_i rest ivf2 e2 heq
        simp only [Option.some.injEq, Prod.mk.injEq] at h
        obtain ⟨-, -, he⟩ := h
        simp only [Bool.false_eq_true, if_false] at he
        have := ih _ _ _ _ _ heq
        omega

/-- The keystream-generation step of the byte-stream loops never hits the
no-key-loaded branch when the key is loaded. -/
lemma stream_step_err (hw : List Nat → List Nat) (ctx : esp_aes_context)
    (hk : ctx.key_in_hardware = ctx.key_bytes) (n : Nat) (iv : List Nat)
    (iv1 : List Nat) (g : Bool) (e1 : Nat)
    (h : (if n = 0 then
            (let r := esp_aes_block hw ctx iv
             if r.isAborted then none
             else some (r.out, true, if r.isErr then 1 else 0))
          else some (iv, false, 0)) = some (iv1, g, e1)) :
    e1 = 0 := by
  dsimp only [] at h
  rw [esp_aes_block_not_err hw ctx iv hk] at h
  split at h
  · split at h
    · simp at h
    · simp only [Option.some.injEq, Prod.mk.injEq] at h
      obtain ⟨-, -, h3⟩ := h
      simp at h3
      omega
  · simp only [Option.some.injEq, Prod.mk.injEq] at h
    obtain ⟨-, -, h3⟩ := h
    omega

/-- The CTR keystream/counter step never hits the no-key-loaded branch when
the key is loaded. -/
lemma ctr_step_err (hw : List Nat → List Nat) (ctx : esp_aes_context)
    (hk : ctx.key_in_hardware = ctx.key_bytes) (n : Nat) (nc sb : List Nat)
    (nc1 sb1 : List Nat) (g : Bool) (e1 : Nat)
    (h : (if n = 0 then
            (let r := esp_aes_block hw ctx nc
             if r.isAborted then none
             else some (ctr_inc nc, r.out, true, if r.isErr then 1 else 0))
          else some (nc, sb, false, 0)) = some (nc1, sb1, g, e1)) :
    e1 = 0 := by
  dsimp only [] at h
  rw [esp_aes_block_not_err hw ctx nc hk] at h
  split at h
  · split at h
    · simp at h
    · simp only [Option.some.injEq, Prod.mk.injEq] at h
      obtain ⟨-, -, -, h3⟩ := h
      simp at h3
      omega
  · simp only [Option.some.injEq, Prod.mk.injEq] at h
    obtain ⟨-, -, -, h3⟩ := h
    omega

lemma cfb128_dec_loop_errs (hw : List Nat → List Nat) (ctx : esp_aes_context)
    (hk : ctx.key_in_hardware = ctx.key_bytes) :
    ∀ input n iv out ivf nf gs e,
      cfb128_dec_loop hw ctx input n iv = some (out, ivf, nf, gs, e) → e = 0 := by
  intro input
  induction input with
  | nil =>
    intro n iv out ivf nf gs e h
    simp only [cfb128_dec_loop, Option.some.injEq, Prod.mk.injEq] at h
    exact h.2.2.2.2.symm
  | cons b rest ih =>
    intro n iv out ivf nf gs e h
    rw [cfb128_dec_loop] at h
    try dsimp only [] at h
    split at h
    · simp at h
    · rename_i iv1 g e1 heq
      split at h
      · simp at h
      · rename_i os ivf2 nf2 gs2 e2 heq2
        simp only [Option.some.injEq, Prod.mk.injEq] at h
        have h1 := stream_step_err hw ctx hk n iv iv1 g e1 heq
        have h2 := ih _ _ _ _ _ _ _ heq2
        omega

lemma cfb128_enc_loop_errs (hw : List Nat → List Nat) (ctx : esp_aes_context)
    (hk : ctx.key_in_hardware = ctx.key_bytes) :
    ∀ input n iv out ivf nf gs e,
      cfb128_enc_loop hw ctx input n iv = some (out, ivf, nf, gs, e) → e = 0 := by
  intro input
  induction input with
  | nil =>
    intro n iv out ivf nf gs e h
    simp only [cfb128_enc_loop, Option.some.injEq, Prod.mk.injEq] at h
    exact h.2.2.2.2.symm
  | cons b rest ih =>
    intro n iv out ivf nf gs e h
    rw [cfb128_enc_loop] at h
    try dsimp only [] at h
    split at h
    · simp at h
    · rename_i iv1 g e1 heq
      split at h
      · simp at h
      · rename_i os ivf2 nf2 gs2 e2 heq2
        simp only [Option.some.injEq, Prod.mk.injEq] at h
        have h1 := stream_step_err hw ctx hk n iv iv1 g e1 heq
        have h2 := ih _ _ _ _ _ _ _ heq2
        omega

lemma cfb8_loop_errs (hw : List Nat → List Nat) (ctx : esp_aes_context)
    (mode : Nat) (hk : ctx.key_in_hardware = ctx.key_bytes) :
    ∀ input iv out ivf e,
      cfb8_loop hw ctx mode input iv = some (out, ivf, e) → e = 0 := by
  intro input
  induction input with
  | nil =>
    intro iv out ivf e h
    simp only [cfb8_loop, Option.some.injEq, Prod.mk.injEq] at h
    exact h.2.2.symm
  | cons b rest ih =>
    intro iv out ivf e h
    rw [cfb8_loop] at h
    try dsimp only [] at h
    rw [esp_aes_block_not_err hw ctx iv hk] at h
    split at h
    · simp at h
    · split at h
      · simp at h
      · rename_i os ivf2 e2 heq
        simp only [Option.some.injEq, Prod.mk.injEq] at h
        obtain ⟨-, -, he⟩ := h
        simp only [Bool.false_eq_true, if_false] at he
        have := ih _ _ _ _ heq
        omega

lemma ctr_loop_errs (hw : List Nat → List Nat) (ctx : esp_aes_context)
    (hk : ctx.key_in_hardware = ctx.key_bytes) :
    ∀ input n nc sb out ncf sbf nf gs e,
      ctr_loop hw ctx input n nc sb = some (out, ncf, sbf, nf, gs, e) → e = 0 := by
  intro input
  induction input with
  | nil =>
    intro n nc sb out ncf sbf nf gs e h
    simp only [ctr_loop, Option.some.injEq, Prod.mk.injEq] at h
    exact h.2.2.2.2.2.symm
  | cons b rest ih =>
    intro n nc sb out ncf sbf nf gs e h
    rw [ctr_loop] at h
    try dsimp only [] at h
    split at h
    · simp at h
    · rename_i nc1 sb1 g e1 heq
      split at h
      · simp at h
      · rename_i os ncf2 sbf2 nf2 gs2 e2 heq2
        simp only [Option.some.injEq, Prod.mk.injEq] at h
        have h1 := ctr_step_err hw ctx hk n nc sb nc1 sb1 g e1 heq
        have h2 := ih _ _ _ _ _ _ _ _ _ heq2
        omega

lemma ofb_loop_errs (hw : List Nat → List Nat) (ctx : esp_aes_context)
    (hk : ctx.key_in_hardware = ctx.key_bytes) :
    ∀ input n iv out ivf nf gs e,
      ofb_loop hw ctx input n iv = some (out, ivf, nf, gs, e) → e = 0 := by
  intro input
  induction input with
  | nil =>
    intro n iv out ivf nf gs e h
    simp only [ofb_loop, Option.some.injEq, Prod.mk.injEq] at h
    exact h.2.2.2.2.symm
  | cons b rest ih =>
    intro n iv out ivf nf gs e h
    rw [ofb_loop] at h
    try dsimp only [] at h
    split at h
    · simp at h
    · rename_i iv1 g e1 heq
      split at h
      · simp at h
      · rename_i os ivf2 nf2 gs2 e2 heq2
        simp only [Option.some.injEq, Prod.mk.injEq] at h
        have h1 := stream_step_err hw ctx hk n iv iv1 g e1 heq
        have h2 := ih _ _ _ _ _ _ _ heq2
        omega

/-- Claim C10: although the streaming drivers discard the block operation's
return value, once the entry validation passes with a valid key length, the
key-programming step makes the no-key-loaded branch unreachable: every
completed streaming call returns 0 (`success`) and the zeroed-block error
branch never fires (`errs = 0`). -/
theorem claim_C10_no_silent_zeroed_block :
    (∀ (E D : List Nat → List Nat) ctx mode iv input out0 r,
       valid_key_length ctx = true → input.length % 16 = 0 →
       esp_aes_crypt_cbc E D ctx mode iv input out0 = some r →
       r.ret = .success ∧ r.errs = 0) ∧
    (∀ (E D : List Nat → List Nat) ctx mode iv_off iv input r,
       valid_key_length ctx = true →
       esp_aes_crypt_cfb128 E D ctx mode iv_off iv input = some r →
       r.ret = .success ∧ r.errs = 0) ∧
    (∀ (E D : List Nat → List Nat) ctx mode iv input r,
       valid_key_length ctx = true →
       esp_aes_crypt_cfb8 E D ctx mode iv input = some r →
       r.ret = .success ∧ r.errs = 0) ∧
    (∀ (E D : List Nat → List Nat) ctx nc_off nc sb input r,
       valid_key_length ctx = true →
       esp_aes_crypt_ctr E D ctx nc_off nc sb input = some r →
       r.ret = .success ∧ r.errs = 0) ∧
    (∀ (E D : List Nat → List Nat) ctx n iv input r,
       valid_key_length ctx = true → n ≤ 15 →
       esp_aes_crypt_ofb E D (some ctx) (some n) (some iv) (some input)
         (some ()) = some r →
       r.ret = .success ∧ r.errs = 0) := by
  refine ⟨?_, ?_, ?_, ?_, ?_⟩
  · intro E D ctx mode iv input out0 r hk hlen hr
    have hsk := setkey_hardware_valid { ctx with key_in_hardware := 0 } mode
      (by rw [valid_key_length_update]; exact hk)
    rw [esp_aes_crypt_cbc, hsk] at hr
    simp only [hlen, hk, ne_eq, not_true_eq_false, if_false, ite_false,
      Bool.not_eq_true, not_false_eq_true, ite_true] at hr
    try dsimp only [] at hr
    split at hr
    · simp at hr
    · rename_i out ivf e heq
      cases hr
      refine ⟨rfl, ?_⟩
      split at heq
      · exact cbc_dec_loop_errs _ _ rfl _ _ _ _ _ _ heq
      · exact cbc_enc_loop_errs _ _ rfl _ _ _ _ _ _ heq
  · intro E D ctx mode iv_off iv input r hk hr
    have hsk := setkey_hardware_valid { ctx with key_in_hardware := 0 }
      ESP_AES_ENCRYPT (by rw [valid_key_length_update]; exact hk)
    rw [esp_aes_crypt_cfb128, hsk] at hr
    simp only [hk, not_true_eq_false, if_false, ite_false, Bool.not_eq_true,
      not_false_eq_true, ite_true] at hr
    try dsimp only [] at hr
    split at hr
    · simp at hr
    · rename_i out ivf nf gs e heq
      cases hr
      refine ⟨rfl, ?_⟩
      split at heq
      · exact cfb128_dec_loop_errs _ _ rfl _ _ _ _ _ _ _ _ heq
      · exact cfb128_enc_loop_errs _ _ rfl _ _ _ _ _ _ _ _ heq
  · intro E D ctx mode iv input r hk hr
    have hsk := setkey_hardware_valid { ctx with key_in_hardware := 0 }
      ESP_AES_ENCRYPT (by rw [valid_key_length_update]; exact hk)
    rw [esp_aes_crypt_cfb8, hsk] at hr
    simp only [hk, not_true_eq_false, if_false, ite_false, Bool.not_eq_true,
      not_false_eq_true, ite_true] at hr
    try dsimp only [] at hr
    split at hr
    · simp at hr
    · rename_i out ivf e heq
      cases hr
      exact ⟨rfl, cfb8_loop_errs _ _ _ rfl _ _ _ _ _ heq⟩
  · intro E D ctx nc_off nc sb input r hk hr
    have hsk := setkey_hardware_valid { ctx with key_in_hardware := 0 }
      ESP_AES_ENCRYPT (by rw [valid_key_length_update]; exact hk)
    rw [esp_aes_crypt_ctr, hsk] at hr
    simp only [hk, not_true_eq_false, if_false, ite_false, Bool.not_eq_true,
      not_false_eq_true, ite_true] at hr
    try dsimp only [] at hr
    split at hr
    · simp at hr
    · rename_i out ncf sbf nf gs e heq
      cases hr
      exact ⟨rfl, ctr_loop_errs _ _ rfl _ _ _ _ _ _ _ _ _ _ heq⟩
  · intro E D ctx n iv input r hk hn hr
    have hsk := setkey_hardware_valid ctx ESP_AES_ENCRYPT hk
    have hn' : ¬ n > 15 := by omega
    rw [esp_aes_crypt_ofb] at hr
    simp only [hn', hk, hsk, not_true_eq_false, if_false, ite_false,
      Bool.not_eq_true, not_false_eq_true, ite_true] at hr
    try dsimp only [] at hr
    split at hr
    · simp at hr
    · rename_i out ivf nf gs e heq
      cases hr
      exact ⟨rfl, ofb_loop_errs _ _ rfl _ _ _ _ _ _ _ _ heq⟩

/-- Witness for claim C10: concrete completed calls of the five streaming
modes return `success` with no error branch taken. -/
theorem claim_C10_no_silent_zeroed_block_witness :
    ((⟨.success, { exCtx with key_in_hardware := 16 }, zeros16, [], 0, 0,
        true⟩ : CbcOut).ret = .success ∧
      (⟨.success, { exCtx with key_in_hardware := 16 }, zeros16, [], 0, 0,
        true⟩ : CbcOut).errs = 0) ∧
    ((⟨.success, { exCtx with key_in_hardware := 16 }, zeros16, 3, [], [], 0,
        true⟩ : StreamOut).ret = .success ∧
      (⟨.success, { exCtx with key_in_hardware := 16 }, zeros16, 3, [], [], 0,
        true⟩ : StreamOut).errs = 0) ∧
    ((⟨.success, { exCtx with key_in_hardware := 16 }, zeros16, [], 0,
        true⟩ : Cfb8Out).ret = .success ∧
      (⟨.success, { exCtx with key_in_hardware := 16 }, zeros16, [], 0,
        true⟩ : Cfb8Out).errs = 0) ∧
    ((⟨.success, { exCtx with key_in_hardware := 16 }, zeros16, zeros16, 5, [],
        [], 0, true⟩ : CtrOut).ret = .success ∧
      (⟨.success, { exCtx with key_in_hardware := 16 }, zeros16, zeros16, 5, [],
        [], 0, true⟩ : CtrOut).errs = 0) ∧
    ((⟨.success, { exCtx with key_in_hardware := 16 }, zeros16, 7, [], [], 0,
        true⟩ : StreamOut).ret = .success ∧
      (⟨.success, { exCtx with key_in_hardware := 16 }, zeros16, 7, [], [], 0,
        true⟩ : StreamOut).errs = 0) :=
  ⟨claim_C10_no_silent_zeroed_block.1 exaes exaes exCtx ESP_AES_ENCRYPT zeros16
      [] [] _ (by decide) (by decide) (by decide),
   claim_C10_no_silent_zeroed_block.2.1 exaes exaes exCtx ESP_AES_ENCRYPT 3
      zeros16 [] _ (by decide) (by decide),
   claim_C10_no_silent_zeroed_block.2.2.1 exaes exaes exCtx ESP_AES_ENCRYPT
      zeros16 [] _ (by decide) (by decide),
   claim_C10_no_silent_zeroed_block.2.2.2.1 exaes exaes exCtx 5 zeros16 zeros16
      [] _ (by decide) (by decide),
   claim_C10_no_silent_zeroed_block.2.2.2.2 exaes exaes exCtx 7 zeros16 [] _
      (by decide) (by decide) (by decide)⟩

/-! ### Claim C8: offset invariant and keystream generation schedule -/

lemma gens_shift (n L : Nat) :
    (List.range L).map (fun i => decide ((((n + 1) &&& 15) + i) % 16 = 0)) =
      (List.range L).map (fun i => decide ((n + (i + 1)) % 16 = 0)) := by
  rw [and15_eq_mod]
  apply List.map_congr_left
  intro i _
  have h : ((n + 1) % 16 + i) % 16 = (n + (i + 1)) % 16 := by omega
  rw [h]

lemma ofb_loop_state (hw : List Nat → List Nat) (ctx : esp_aes_context) :
    ∀ input n iv out ivf nf gs e, n < 16 →
      ofb_loop hw ctx input n iv = some (out, ivf, nf, gs, e) →
      nf = (n + input.length) % 16 ∧
      gs = (List.range input.length).map (fun i => decide ((n + i) % 16 = 0)) := by
  intro input
  induction input with
  | nil =>
    intro n iv out ivf nf gs e hn h
    simp only [ofb_loop, Option.some.injEq, Prod.mk.injEq] at h
    obtain ⟨-, -, h1, h2, -⟩ := h
    refine ⟨by simp only [List.length_nil]; omega, by simp [← h2]⟩
  | cons b rest ih =>
    intro n iv out ivf nf gs e hn h
    rw [ofb_loop] at h
    try dsimp only [] at h
    split at h
    · simp at h
    · rename_i iv1 g e1 heq
      split at h
      · simp at h
      · rename_i os ivf2 nf2 gs2 e2 heq2
        have hlt : (n + 1) &&& 15 < 16 := by rw [and15_eq_mod]; omega
        obtain ⟨ih1, ih2⟩ := ih _ _ _ _ _ _ _ hlt heq2
        simp only [Option.some.injEq, Prod.mk.injEq] at h
        obtain ⟨-, -, hnf, hgs, -⟩ := h
        rw [and15_eq_mod] at ih1
        constructor
        · simp only [List.length_cons]
          omega
        · rw [← hgs, ih2, List.length_cons, List.range_succ_eq_map,
            List.map_cons, List.map_map]
          have hg : g = decide ((n + 0) % 16 = 0) := by
            split at heq
            · rename_i hn0
              split at heq
              · simp at heq
              · simp only [Option.some.injEq, Prod.mk.injEq] at heq
                simp [← heq.2.1, hn0]
            · rename_i hn0
              simp only [Option.some.injEq, Prod.mk.injEq] at heq
              rw [← heq.2.1]
              simp
              omega
          rw [hg, gens_shift n rest.length]
          rfl

lemma cfb128_dec_loop_state (hw : List Nat → List Nat) (ctx : esp_aes_context) :
    ∀ input n iv out ivf nf gs e, n < 16 →
      cfb128_dec_loop hw ctx input n iv = some (out, ivf, nf, gs, e) →
      nf = (n + input.length) % 16 ∧
      gs = (List.range input.length).map (fun i => decide ((n + i) % 16 = 0)) := by
  intro input
  induction input with
  | nil =>
    intro n iv out ivf nf gs e hn h
    simp only [cfb128_dec_loop, Option.some.injEq, Prod.mk.injEq] at h
    obtain ⟨-, -, h1, h2, -⟩ := h
    refine ⟨by simp only [List.length_nil]; omega, by simp [← h2]⟩
  | cons b rest ih =>
    intro n iv out ivf nf gs e hn h
    rw [cfb128_dec_loop] at h
    try dsimp only [] at h
    split at h
    · simp at h
    · rename_i iv1 g e1 heq
      split at h
      · simp at h
      · rename_i os ivf2 nf2 gs2 e2 heq2
        have hlt : (n + 1) &&& 15 < 16 := by rw [and15_eq_mod]; omega
        obtain ⟨ih1, ih2⟩ := ih _ _ _ _ _ _ _ hlt heq2
        simp only [Option.some.injEq, Prod.mk.injEq] at h
        obtain ⟨-, -, hnf, hgs, -⟩ := h
        rw [and15_eq_mod] at ih1
        constructor
        · simp only [List.length_cons]
          omega
        · rw [← hgs, ih2, List.length_cons, List.range_succ_eq_map,
            List.map_cons, List.map_map]
          have hg : g = decide ((n + 0) % 16 = 0) := by
            split at heq
            · rename_i hn0
              split at heq
              · simp at heq
              · simp only [Option.some.injEq, Prod.mk.injEq] at heq
                simp [← heq.2.1, hn0]
            · rename_i hn0
              simp only [Option.some.injEq, Prod.mk.injEq] at heq
              rw [← heq.2.1]
              simp
              omega
          rw [hg, gens_shift n rest.length]
          rfl

lemma cfb128_enc_loop_state (hw : List Nat → List Nat) (ctx : esp_aes_context) :
    ∀ input n iv out ivf nf gs e, n < 16 →
      cfb128_enc_loop hw ctx input n iv = some (out, ivf, nf, gs, e) →
      nf = (n + input.length) % 16 ∧
      gs = (List.range input.length).map (fun i => decide ((n + i) % 16 = 0)) := by
  intro input
  induction input with
  | nil =>
    intro n iv out ivf nf gs e hn h
    simp only [cfb128_enc_loop, Option.some.injEq, Prod.mk.injEq] at h
    obtain ⟨-, -, h1, h2, -⟩ := h
    refine ⟨by simp only [List.length_nil]; omega, by simp [← h2]⟩
  | cons b rest ih =>
    intro n iv out ivf nf gs e hn h
    rw [cfb128_enc_loop] at h
    try dsimp only [] at h
    split at h
    · simp at h
    · rename_i iv1 g e1 heq
      split at h
      · simp at h
      · rename_i os ivf2 nf2 gs2 e2 heq2
        have hlt : (n + 1) &&& 15 < 16 := by rw [and15_eq_mod]; omega
        obtain ⟨ih1, ih2⟩ := ih _ _ _ _ _ _ _ hlt heq2
        simp only [Option.some.injEq, Prod.mk.injEq] at h
        obtain ⟨-, -, hnf, hgs, -⟩ := h
        rw [and15_eq_mod] at ih1
        constructor
        · simp only [List.length_cons]
          omega
        · rw [← hgs, ih2, List.length_cons, List.range_succ_eq_map,
            List.map_cons, List.map_map]
          have hg : g = decide ((n + 0) % 16 = 0) := by
            split at heq
            · rename_i hn0
              split at heq
              · simp at heq
              · simp only [Option.some.injEq, Prod.mk.injEq] at heq
                simp [← heq.2.1, hn0]
            · rename_i hn0
              simp only [Option.some.injEq, Prod.mk.injEq] at heq
              rw [← heq.2.1]
              simp
              omega
          rw [hg, gens_shift n rest.length]
          rfl

lemma ctr_loop_state (hw : List Nat → List Nat) (ctx : esp_aes_context) :
    ∀ input n nc sb out ncf sbf nf gs e, n < 16 →
      ctr_loop hw ctx input n nc sb = some (out, ncf, sbf, nf, gs, e) →
      nf = (n + input.length) % 16 ∧
      gs = (List.range input.length).map (fun i => decide ((n + i) % 16 = 0)) ∧
      ncf = ctr_inc^[gs.count true] nc := by
  intro input
  induction input with
  | nil =>
    intro n nc sb out ncf sbf nf gs e hn h
    simp only [ctr_loop, Option.some.injEq, Prod.mk.injEq] at h
    obtain ⟨-, h0, -, h1, h2, -⟩ := h
    refine ⟨by simp only [List.length_nil]; omega, by simp [← h2], ?_⟩
    rw [← h2]
    simpa using h0.symm
  | cons b rest ih =>
    intro n nc sb out ncf sbf nf gs e hn h
    rw [ctr_loop] at h
    try dsimp only [] at h
    split at h
    · simp at h
    · rename_i nc1 sb1 g e1 heq
      split at h
      · simp at h
      · rename_i os ncf2 sbf2 nf2 gs2 e2 heq2
        have hlt : (n + 1) &&& 15 < 16 := by rw [and15_eq_mod]; omega
        obtain ⟨ih1, ih2, ih3⟩ := ih _ _ _ _ _ _ _ _ _ hlt heq2
        simp only [Option.some.injEq, Prod.mk.injEq] at h
        obtain ⟨-, hncf, -, hnf, hgs, -⟩ := h
        rw [and15_eq_mod] at ih1
        have hg : g = decide ((n + 0) % 16 = 0) ∧
            nc1 = (if n = 0 then ctr_inc nc else nc) := by
          split at heq
          · rename_i hn0
            split at heq
            · simp at heq
            · simp only [Option.some.injEq, Prod.mk.injEq] at heq
              exact ⟨by simp [← heq.2.2.1, hn0], by simp [← heq.1, hn0]⟩
          · rename_i hn0
            simp only [Option.some.injEq, Prod.mk.injEq] at heq
            refine ⟨?_, by simp [← heq.1, hn0]⟩
            rw [← heq.2.2.1]
            simp
            omega
        refine ⟨by simp only [List.length_cons]; omega, ?_, ?_⟩
        · rw [← hgs, ih2, List.length_cons, List.range_succ_eq_map,
            List.map_cons, List.map_map]
          rw [hg.1, gens_shift n rest.length]
          rfl
        · rw [← hncf, ih3, ← hgs]
          rcases Nat.eq_zero_or_pos n with hn0 | hn0
          · have hgt : g = true := by
              rw [hg.1, hn0]
              rfl
            rw [hg.2, if_pos hn0, hgt]
            simp only [List.count_cons, beq_self_eq_true, if_true]
            rw [← Function.iterate_succ_apply]
          · have hgf : g = false := by
              rw [hg.1]
              have hmod : (n + 0) % 16 = n := by omega
              simp only [hmod]
              simp
              omega
            have hne : ¬ n = 0 := by omega
            rw [hg.2, if_neg hne, hgf]
            simp [List.count_cons]

/-- Counterexample to claim C8 as stated: a caller-supplied starting offset
of 16 with an empty input makes CFB128 return success while writing back
offset 16, which does not lie in [0,16). -/
theorem claim_C8_offset_invariant_counterexample :
    esp_aes_crypt_cfb128 exaes exaes exCtx ESP_AES_ENCRYPT 16 zeros16 [] =
      some { ret := .success, ctx := { exCtx with key_in_hardware := 16 },
             iv := zeros16, n := 16, output := [], gens := [], errs := 0,
             acquired := true } ∧
    ¬ (16 : Nat) < 16 :=
  ⟨by decide, by decide⟩

/-- Claim C8 (amended: for every starting offset in [0,16) rather than every
offset the caller may supply): for CFB128, CTR and OFB, every successful call
writes back an offset in [0,16), and a fresh hardware keystream block is
generated exactly at the byte positions whose pre-consumption offset is 0. -/
theorem claim_C8_offset_invariant :
    (∀ (E D : List Nat → List Nat) ctx mode n0 iv input r,
       valid_key_length ctx = true → n0 < 16 →
       esp_aes_crypt_cfb128 E D ctx mode n0 iv input = some r →
       r.n < 16 ∧ r.n = (n0 + input.length) % 16 ∧
       r.gens = (List.range input.length).map
         (fun i => decide ((n0 + i) % 16 = 0))) ∧
    (∀ (E D : List Nat → List Nat) ctx n0 nc sb input r,
       valid_key_length ctx = true → n0 < 16 →
       esp_aes_crypt_ctr E D ctx n0 nc sb input = some r →
       r.n < 16 ∧ r.n = (n0 + input.length) % 16 ∧
       r.gens = (List.range input.length).map
         (fun i => decide ((n0 + i) % 16 = 0))) ∧
    (∀ (E D : List Nat → List Nat) ctx n0 iv input r,
       valid_key_length ctx = true → n0 < 16 →
       esp_aes_crypt_ofb E D (some ctx) (some n0) (some iv) (some input)
         (some ()) = some r →
       r.n < 16 ∧ r.n = (n0 + input.length) % 16 ∧
       r.gens = (List.range input.length).map
         (fun i => decide ((n0 + i) % 16 = 0))) := by
  refine ⟨?_, ?_, ?_⟩
  · intro E D ctx mode n0 iv input r hk hn hr
    have hsk := setkey_hardware_valid { ctx with key_in_hardware := 0 }
      ESP_AES_ENCRYPT (by rw [valid_key_length_update]; exact hk)
    rw [esp_aes_crypt_cfb128, hsk] at hr
    simp only [hk, not_true_eq_false, if_false, ite_false, Bool.not_eq_true,
      not_false_eq_true, ite_true] at hr
    try dsimp only [] at hr
    split at hr
    · simp at hr
    · rename_i out ivf nf gs e heq
      cases hr
      have hstate : nf = (n0 + input.length) % 16 ∧
          gs = (List.range input.length).map
            (fun i => decide ((n0 + i) % 16 = 0)) := by
        split at heq
        · exact cfb128_dec_loop_state _ _ _ _ _ _ _ _ _ _ hn heq
        · exact cfb128_enc_loop_state _ _ _ _ _ _ _ _ _ _ hn heq
      exact ⟨by have := hstate.1; simp only [StreamOut.n]; omega, hstate.1,
        hstate.2⟩
  · intro E D ctx n0 nc sb input r hk hn hr
    have hsk := setkey_hardware_valid { ctx with key_in_hardware := 0 }
      ESP_AES_ENCRYPT (by rw [valid_key_length_update]; exact hk)
    rw [esp_aes_crypt_ctr, hsk] at hr
    simp only [hk, not_true_eq_false, if_false, ite_false, Bool.not_eq_true,
      not_false_eq_true, ite_true] at hr
    try dsimp only [] at hr
    split at hr
    · simp at hr
    · rename_i out ncf sbf nf gs e heq
      cases hr
      obtain ⟨h1, h2, -⟩ := ctr_loop_state _ _ _ _ _ _ _ _ _ _ _ _ hn heq
      exact ⟨by simp only [CtrOut.n]; omega, h1, h2⟩
  · intro E D ctx n0 iv input r hk hn hr
    have hsk := setkey_hardware_valid ctx ESP_AES_ENCRYPT hk
    have hn' : ¬ n0 > 15 := by omega
    rw [esp_aes_crypt_ofb] at hr
    simp only [hn', hk, hsk, not_true_eq_false, if_false, ite_false,
      Bool.not_eq_true, not_false_eq_true, ite_true] at hr
    try dsimp only [] at hr
    split at hr
    · simp at hr
    · rename_i out ivf nf gs e heq
      cases hr
      obtain ⟨h1, h2⟩ := ofb_loop_state _ _ _ _ _ _ _ _ _ _ hn heq
      exact ⟨by simp only [StreamOut.n]; omega, h1, h2⟩

/-- Witness for (amended) claim C8: one-byte runs of CFB128, CTR and OFB
from offset 0 generate exactly one keystream block and write back offset 1. -/
theorem claim_C8_offset_invariant_witness :
    ((⟨.success, { exCtx with key_in_hardware := 16 },
        8 :: List.replicate 15 1, 1, [8], [true], 0, true⟩ : StreamOut).n < 16 ∧
      (⟨.success, { exCtx with key_in_hardware := 16 },
        8 :: List.replicate 15 1, 1, [8], [true], 0, true⟩ : StreamOut).n =
        (0 + [9].length) % 16 ∧
      (⟨.success, { exCtx with key_in_hardware := 16 },
        8 :: List.replicate 15 1, 1, [8], [true], 0, true⟩ : StreamOut).gens =
        (List.range [9].length).map (fun i => decide ((0 + i) % 16 = 0))) ∧
    ((⟨.success, { exCtx with key_in_hardware := 16 },
        List.replicate 15 0 ++ [1], List.replicate 16 1, 1, [8], [true], 0,
        true⟩ : CtrOut).n < 16 ∧
      (⟨.success, { exCtx with key_in_hardware := 16 },
        List.replicate 15 0 ++ [1], List.replicate 16 1, 1, [8], [true], 0,
        true⟩ : CtrOut).n = (0 + [9].length) % 16 ∧
      (⟨.success, { exCtx with key_in_hardware := 16 },
        List.replicate 15 0 ++ [1], List.replicate 16 1, 1, [8], [true], 0,
        true⟩ : CtrOut).gens =
        (List.range [9].length).map (fun i => decide ((0 + i) % 16 = 0))) ∧
    ((⟨.success, { exCtx with key_in_hardware := 16 },
        List.replicate 16 1, 1, [8], [true], 0, true⟩ : StreamOut).n < 16 ∧
      (⟨.success, { exCtx with key_in_hardware := 16 },
        List.replicate 16 1, 1, [8], [true], 0, true⟩ : StreamOut).n =
        (0 + [9].length) % 16 ∧
      (⟨.success, { exCtx with key_in_hardware := 16 },
        List.replicate 16 1, 1, [8], [true], 0, true⟩ : StreamOut).gens =
        (List.range [9].length).map (fun i => decide ((0 + i) % 16 = 0))) :=
  ⟨claim_C8_offset_invariant.1 exaes exaes exCtx ESP_AES_ENCRYPT 0 zeros16 [9]
      _ (by decide) (by decide) (by decide),
   claim_C8_offset_invariant.2.1 exaes exaes exCtx 0 zeros16 zeros16 [9] _
      (by decide) (by decide) (by decide),
   claim_C8_offset_invariant.2.2 exaes exaes exCtx 0 zeros16 [9] _
      (by decide) (by decide) (by decide)⟩

/-! ### Claim C5: streaming continuation -/

lemma ofb_loop_append (hw : List Nat → List Nat) (ctx : esp_aes_context) :
    ∀ a b n iv o1 iv1 n1 g1 e1 o2 iv2 n2 g2 e2,
      ofb_loop hw ctx a n iv = some (o1, iv1, n1, g1, e1) →
      ofb_loop hw ctx b n1 iv1 = some (o2, iv2, n2, g2, e2) →
      ofb_loop hw ctx (a ++ b) n iv =
        some (o1 ++ o2, iv2, n2, g1 ++ g2, e1 + e2) := by
  intro a
  induction a with
  | nil =>
    intro b n iv o1 iv1 n1 g1 e1 o2 iv2 n2 g2 e2 h1 h2
    simp only [ofb_loop, Option.some.injEq, Prod.mk.injEq] at h1
    obtain ⟨h3, h4, h5, h6, h7⟩ := h1
    subst h3
    subst h4
    subst h5
    subst h6
    subst h7
    simpa using h2
  | cons x a' ih =>
    intro b n iv o1 iv1 n1 g1 e1 o2 iv2 n2 g2 e2 h1 h2
    rw [ofb_loop] at h1
    rw [List.cons_append, ofb_loop]
    try dsimp only [] at h1
    try dsimp only []
    split at h1
    · simp at h1
    · rename_i iv1' g e1' heq
      split at h1
      · simp at h1
      · rename_i os ivf nf gs' e' heq2
        simp only [Option.some.injEq, Prod.mk.injEq] at h1
        obtain ⟨hO, hIV, hN, hG, hE⟩ := h1
        subst hO
        subst hIV
        subst hN
        subst hG
        subst hE
        rw [ih b _ _ _ _ _ _ _ _ _ _ _ _ heq2 h2]
        simp [Nat.add_assoc]

lemma cfb128_dec_loop_append (hw : List Nat → List Nat) (ctx : esp_aes_context) :
    ∀ a b n iv o1 iv1 n1 g1 e1 o2 iv2 n2 g2 e2,
      cfb128_dec_loop hw ctx a n iv = some (o1, iv1, n1, g1, e1) →
      cfb128_dec_loop hw ctx b n1 iv1 = some (o2, iv2, n2, g2, e2) →
      cfb128_dec_loop hw ctx (a ++ b) n iv =
        some (o1 ++ o2, iv2, n2, g1 ++ g2, e1 + e2) := by
  intro a
  induction a with
  | nil =>
    intro b n iv o1 iv1 n1 g1 e1 o2 iv2 n2 g2 e2 h1 h2
    simp only [cfb128_dec_loop, Option.some.injEq, Prod.mk.injEq] at h1
    obtain ⟨h3, h4, h5, h6, h7⟩ := h1
    subst h3
    subst h4
    subst h5
    subst h6
    subst h7
    simpa using h2
  | cons x a' ih =>
    intro b n iv o1 iv1 n1 g1 e1 o2 iv2 n2 g2 e2 h1 h2
    rw [cfb128_dec_loop] at h1
    rw [List.cons_append, cfb128_dec_loop]
    try dsimp only [] at h1
    try dsimp only []
    split at h1
    · simp at h1
    · rename_i iv1' g e1' heq
      split at h1
      · simp at h1
      · rename_i os ivf nf gs' e' heq2
        simp only [Option.some.injEq, Prod.mk.injEq] at h1
        obtain ⟨hO, hIV, hN, hG, hE⟩ := h1
        subst hO
        subst hIV
        subst hN
        subst hG
        subst hE
        rw [ih b _ _ _ _ _ _ _ _ _ _ _ _ heq2 h2]
        simp [Nat.add_assoc]

lemma cfb128_enc_loop_append (hw : List Nat → List Nat) (ctx : esp_aes_context) :
    ∀ a b n iv o1 iv1 n1 g1 e1 o2 iv2 n2 g2 e2,
      cfb128_enc_loop hw ctx a n iv = some (o1, iv1, n1, g1, e1) →
      cfb128_enc_loop hw ctx b n1 iv1 = some (o2, iv2, n2, g2, e2) →
      cfb128_enc_loop hw ctx (a ++ b) n iv =
        some (o1 ++ o2, iv2, n2, g1 ++ g2, e1 + e2) := by
  intro a
  induction a with
  | nil =>
    intro b n iv o1 iv1 n1 g1 e1 o2 iv2 n2 g2 e2 h1 h2
    simp only [cfb128_enc_loop, Option.some.injEq, Prod.mk.injEq] at h1
    obtain ⟨h3, h4, h5, h6, h7⟩ := h1
    subst h3
    subst h4
    subst h5
    subst h6
    subst h7
    simpa using h2
  | cons x a' ih =>
    intro b n iv o1 iv1 n1 g1 e1 o2 iv2 n2 g2 e2 h1 h2
    rw [cfb128_enc_loop] at h1
    rw [List.cons_append, cfb128_enc_loop]
    try dsimp only [] at h1
    try dsimp only []
    split at h1
    · simp at h1
    · rename_i iv1' g e1' heq
      split at h1
      · simp at h1
      · rename_i os ivf nf gs' e' heq2
        simp only [Option.some.injEq, Prod.mk.injEq] at h1
        obtain ⟨hO, hIV, hN, hG, hE⟩ := h1
        subst hO
        subst hIV
        subst hN
        subst hG
        subst hE
        rw [ih b _ _ _ _ _ _ _ _ _ _ _ _ heq2 h2]
        simp [Nat.add_assoc]

lemma cfb8_loop_append (hw : List Nat → List Nat) (ctx : esp_aes_context)
    (mode : Nat) :
    ∀ a b iv o1 iv1 e1 o2 iv2 e2,
      cfb8_loop hw ctx mode a iv = some (o1, iv1, e1) →
      cfb8_loop hw ctx mode b iv1 = some (o2, iv2, e2) →
      cfb8_loop hw ctx mode (a ++ b) iv = some (o1 ++ o2, iv2, e1 + e2) := by
  intro a
  induction a with
  | nil =>
    intro b iv o1 iv1 e1 o2 iv2 e2 h1 h2
    simp only [cfb8_loop, Option.some.injEq, Prod.mk.injEq] at h1
    obtain ⟨h3, h4, h5⟩ := h1
    subst h3
    subst h4
    subst h5
    simpa using h2
  | cons x a' ih =>
    intro b iv o1 iv1 e1 o2 iv2 e2 h1 h2
    rw [cfb8_loop] at h1
    rw [List.cons_append, cfb8_loop]
    try dsimp only [] at h1
    try dsimp only []
    split at h1
    · simp at h1
    · rename_i hab
      rw [if_neg hab]
      split at h1
      · simp at h1
      · rename_i os ivf e' heq2
        simp only [Option.some.injEq, Prod.mk.injEq] at h1
        obtain ⟨hO, hIV, hE⟩ := h1
        subst hO
        subst hIV
        subst hE
        rw [ih b _ _ _ _ _ _ _ heq2 h2]
        simp [Nat.add_assoc]

lemma ctr_loop_append (hw : List Nat → List Nat) (ctx : esp_aes_context) :
    ∀ a b n nc sb o1 nc1 sb1 n1 g1 e1 o2 nc2 sb2 n2 g2 e2,
      ctr_loop hw ctx a n nc sb = some (o1, nc1, sb1, n1, g1, e1) →
      ctr_loop hw ctx b n1 nc1 sb1 = some (o2, nc2, sb2, n2, g2, e2) →
      ctr_loop hw ctx (a ++ b) n nc sb =
        some (o1 ++ o2, nc2, sb2, n2, g1 ++ g2, e1 + e2) := by
  intro a
  induction a with
  | nil =>
    intro b n nc sb o1 nc1 sb1 n1 g1 e1 o2 nc2 sb2 n2 g2 e2 h1 h2
    simp only [ctr_loop, Option.some.injEq, Prod.mk.injEq] at h1
    obtain ⟨h3, h4, h5, h6, h7, h8⟩ := h1
    subst h3
    subst h4
    subst h5
    subst h6
    subst h7
    subst h8
    simpa using h2
  | cons x a' ih =>
    intro b n nc sb o1 nc1 sb1 n1 g1 e1 o2 nc2 sb2 n2 g2 e2 h1 h2
    rw [ctr_loop] at h1
    rw [List.cons_append, ctr_loop]
    try dsimp only [] at h1
    try dsimp only []
    split at h1
    · simp at h1
    · rename_i nc1' sb1' g e1' heq
      split at h1
      · simp at h1
      · rename_i os ncf sbf nf gs' e' heq2
        simp only [Option.some.injEq, Prod.mk.injEq] at h1
        obtain ⟨hO, hNC, hSB, hN, hG, hE⟩ := h1
        subst hO
        subst hNC
        subst hSB
        subst hN
        subst hG
        subst hE
        rw [ih b _ _ _ _ _ _ _ _ _ _ _ _ _ _ _ heq2 h2]
        simp [Nat.add_assoc]

/-- With a valid key length, the CFB128 driver is the loop run with the key
loaded into the hardware context. -/
lemma cfb128_driver_eq (E D : List Nat → List Nat) (ctx : esp_aes_context)
    (mode n0 : Nat) (iv input : List Nat) (hk : valid_key_length ctx = true) :
    esp_aes_crypt_cfb128 E D ctx mode n0 iv input =
      (match (if mode == ESP_AES_DECRYPT then
                cfb128_dec_loop E { ctx with key_in_hardware := ctx.key_bytes }
                  input n0 iv
              else
                cfb128_enc_loop E { ctx with key_in_hardware := ctx.key_bytes }
                  input n0 iv) with
       | none => none
       | some (out, ivf, nf, gs, e) =>
         some { ret := .success,
                ctx := { ctx with key_in_hardware := ctx.key_bytes },
                iv := ivf, n := nf, output := out, gens := gs, errs := e,
                acquired := true }) := by
  have hsk := setkey_hardware_valid { ctx with key_in_hardware := 0 }
    ESP_AES_ENCRYPT (by rw [valid_key_length_update]; exact hk)
  rw [esp_aes_crypt_cfb128, hsk]
  simp [hk]

/-- With a valid key length, the CFB8 driver is the loop run with the key
loaded into the hardware context. -/
lemma cfb8_driver_eq (E D : List Nat → List Nat) (ctx : esp_aes_context)
    (mode : Nat) (iv input : List Nat) (hk : valid_key_length ctx = true) :
    esp_aes_crypt_cfb8 E D ctx mode iv input =
      (match cfb8_loop E { ctx with key_in_hardware := ctx.key_bytes } mode
          input iv with
       | none => none
       | some (out, ivf, e) =>
         some { ret := .success,
                ctx := { ctx with key_in_hardware := ctx.key_bytes },
                iv := ivf, output := out, errs := e, acquired := true }) := by
  have hsk := setkey_hardware_valid { ctx with key_in_hardware := 0 }
    ESP_AES_ENCRYPT (by rw [valid_key_length_update]; exact hk)
  rw [esp_aes_crypt_cfb8, hsk]
  simp [hk]

/-- With a valid key length, the CTR driver is the loop run with the key
loaded into the hardware context. -/
lemma ctr_driver_eq (E D : List Nat → List Nat) (ctx : esp_aes_context)
    (n0 : Nat) (nc sb input : List Nat) (hk : valid_key_length ctx = true) :
    esp_aes_crypt_ctr E D ctx n0 nc sb input =
      (match ctr_loop E { ctx with key_in_hardware := ctx.key_bytes } input n0
          nc sb with
       | none => none
       | some (out, ncf, sbf, nf, gs, e) =>
         some { ret := .success,
                ctx := { ctx with key_in_hardware := ctx.key_bytes },
                nonce_counter := ncf, stream_block := sbf, n := nf,
                output := out, gens := gs, errs := e, acquired := true }) := by
  have hsk := setkey_hardware_valid { ctx with key_in_hardware := 0 }
    ESP_AES_ENCRYPT (by rw [valid_key_length_update]; exact hk)
  rw [esp_aes_crypt_ctr, hsk]
  simp [hk]

/-- With a valid key length, non-null arguments and an in-range offset, the
OFB driver is the loop run with the key loaded into the hardware context. -/
lemma ofb_driver_eq (E D : List Nat → List Nat) (ctx : esp_aes_context)
    (n0 : Nat) (iv input : List Nat) (hn : n0 ≤ 15)
    (hk : valid_key_length ctx = true) :
    esp_aes_crypt_ofb E D (some ctx) (some n0) (some iv) (some input)
        (some ()) =
      (match ofb_loop E { ctx with key_in_hardware := ctx.key_bytes } input n0
          iv with
       | none => none
       | some (out, ivf, nf, gs, e) =>
         some { ret := .success,
                ctx := { ctx with key_in_hardware := ctx.key_bytes },
                iv := ivf, n := nf, output := out, gens := gs, errs := e,
                acquired := true }) := by
  have hsk := setkey_hardware_valid ctx ESP_AES_ENCRYPT hk
  have hn' : ¬ n0 > 15 := by omega
  rw [esp_aes_crypt_ofb]
  simp [hk, hn', hsk]

/-- With a valid key length, the ECB driver is one block operation with the
key loaded into the hardware context. -/
lemma ecb_driver_eq (E D : List Nat → List Nat) (ctx : esp_aes_context)
    (mode : Nat) (input : List Nat) (hk : valid_key_length ctx = true) :
    esp_aes_crypt_ecb E D ctx mode input =
      (match esp_aes_block (if mode == ESP_AES_ENCRYPT then E else D)
          { ctx with key_in_hardware := ctx.key_bytes } input with
       | .aborted _ => none
       | .err o =>
         some { ret := .invalidInputLength,
                ctx := { ctx with key_in_hardware := ctx.key_bytes },
                output := o, acquired := true }
       | .ok o =>
         some { ret := .success,
                ctx := { ctx with key_in_hardware := ctx.key_bytes },
                output := o, acquired := true }) := by
  have hsk := setkey_hardware_valid { ctx with key_in_hardware := 0 } mode
    (by rw [valid_key_length_update]; exact hk)
  rw [esp_aes_crypt_ecb, hsk]
  simp [hk]

/-- With a valid key length and a block-multiple input length, the CBC driver
is the per-block loop run with the key loaded into the hardware context. -/
lemma cbc_driver_eq (E D : List Nat → List Nat) (ctx : esp_aes_context)
    (mode : Nat) (iv input out0 : List Nat)
    (hlen : input.length % 16 = 0) (hk : valid_key_length ctx = true) :
    esp_aes_crypt_cbc E D ctx mode iv input out0 =
      (match (if mode == ESP_AES_DECRYPT then
                cbc_dec_loop (if mode == ESP_AES_ENCRYPT then E else D)
                  { ctx with key_in_hardware := ctx.key_bytes }
                  (input.length / 16) input iv
              else
                cbc_enc_loop (if mode == ESP_AES_ENCRYPT then E else D)
                  { ctx with key_in_hardware := ctx.key_bytes }
                  (input.length / 16) input iv) with
       | none => none
       | some (out, ivf, e) =>
         some { ret := .success,
                ctx := { ctx with key_in_hardware := ctx.key_bytes },
                iv := ivf, output := out ++ out0.drop input.length,
                blocks := input.length / 16, errs := e, acquired := true }) := by
  have hsk := setkey_hardware_valid { ctx with key_in_hardware := 0 } mode
    (by rw [valid_key_length_update]; exact hk)
  rw [esp_aes_crypt_cbc, hsk]
  simp [hk, hlen]

/-- Claim C5: for CFB128, CFB8, CTR and OFB, splitting an input into two
consecutive segments and threading the chaining state (IV / counter /
stream block / offset and the updated context) through two calls produces
byte-for-byte the same output and the same final chaining state as one call
on the concatenated input. -/
theorem claim_C5_streaming_continuation :
    (∀ (E D : List Nat → List Nat) ctx mode n0 iv a b r1 r2,
       valid_key_length ctx = true →
       esp_aes_crypt_cfb128 E D ctx mode n0 iv a = some r1 →
       esp_aes_crypt_cfb128 E D r1.ctx mode r1.n r1.iv b = some r2 →
       ∃ r3, esp_aes_crypt_cfb128 E D ctx mode n0 iv (a ++ b) = some r3 ∧
         r3.output = r1.output ++ r2.output ∧ r3.iv = r2.iv ∧ r3.n = r2.n ∧
         r3.ctx = r2.ctx) ∧
    (∀ (E D : List Nat → List Nat) ctx mode iv a b r1 r2,
       valid_key_length ctx = true →
       esp_aes_crypt_cfb8 E D ctx mode iv a = some r1 →
       esp_aes_crypt_cfb8 E D r1.ctx mode r1.iv b = some r2 →
       ∃ r3, esp_aes_crypt_cfb8 E D ctx mode iv (a ++ b) = some r3 ∧
         r3.output = r1.output ++ r2.output ∧ r3.iv = r2.iv ∧
         r3.ctx = r2.ctx) ∧
    (∀ (E D : List Nat → List Nat) ctx n0 nc sb a b r1 r2,
       valid_key_length ctx = true →
       esp_aes_crypt_ctr E D ctx n0 nc sb a = some r1 →
       esp_aes_crypt_ctr E D r1.ctx r1.n r1.nonce_counter r1.stream_block b =
         some r2 →
       ∃ r3, esp_aes_crypt_ctr E D ctx n0 nc sb (a ++ b) = some r3 ∧
         r3.output = r1.output ++ r2.output ∧
         r3.nonce_counter = r2.nonce_counter ∧
         r3.stream_block = r2.stream_block ∧ r3.n = r2.n ∧
         r3.ctx = r2.ctx) ∧
    (∀ (E D : List Nat → List Nat) ctx n0 iv a b r1 r2,
       valid_key_length ctx = true → n0 ≤ 15 → r1.n ≤ 15 →
       esp_aes_crypt_ofb E D (some ctx) (some n0) (some iv) (some a)
         (some ()) = some r1 →
       esp_aes_crypt_ofb E D (some r1.ctx) (some r1.n) (some r1.iv) (some b)
         (some ()) = some r2 →
       ∃ r3, esp_aes_crypt_ofb E D (some ctx) (some n0) (some iv)
           (some (a ++ b)) (some ()) = some r3 ∧
         r3.output = r1.output ++ r2.output ∧ r3.iv = r2.iv ∧ r3.n = r2.n ∧
         r3.ctx = r2.ctx) := by
  refine ⟨?_, ?_, ?_, ?_⟩
  · intro E D ctx mode n0 iv a b r1 r2 hk h1 h2
    rw [cfb128_driver_eq E D ctx mode n0 iv a hk] at h1
    split at h1
    · simp at h1
    · rename_i out1 ivf1 nf1 gs1 e1 heq1
      cases h1
      dsimp only [] at h2
      rw [cfb128_driver_eq E D { ctx with key_in_hardware := ctx.key_bytes }
        mode nf1 ivf1 b (by rw [valid_key_length_update]; exact hk)] at h2
      split at h2
      · simp at h2
      · rename_i out2 ivf2 nf2 gs2 e2 heq2
        cases h2
        rw [cfb128_driver_eq E D ctx mode n0 iv (a ++ b) hk]
        by_cases hm : (mode == ESP_AES_DECRYPT) = true
        · rw [if_pos hm] at heq1 heq2 ⊢
          rw [cfb128_dec_loop_append E _ a b n0 iv _ _ _ _ _ _ _ _ _ _ heq1
            heq2]
          exact ⟨_, rfl, rfl, rfl, rfl, rfl⟩
        · rw [if_neg hm] at heq1 heq2 ⊢
          rw [cfb128_enc_loop_append E _ a b n0 iv _ _ _ _ _ _ _ _ _ _ heq1
            heq2]
          exact ⟨_, rfl, rfl, rfl, rfl, rfl⟩
  · intro E D ctx mode iv a b r1 r2 hk h1 h2
    rw [cfb8_driver_eq E D ctx mode iv a hk] at h1
    split at h1
    · simp at h1
    · rename_i out1 ivf1 e1 heq1
      cases h1
      dsimp only [] at h2
      rw [cfb8_driver_eq E D { ctx with key_in_hardware := ctx.key_bytes }
        mode ivf1 b (by rw [valid_key_length_update]; exact hk)] at h2
      split at h2
      · simp at h2
      · rename_i out2 ivf2 e2 heq2
        cases h2
        rw [cfb8_driver_eq E D ctx mode iv (a ++ b) hk]
        rw [cfb8_loop_append E _ mode a b iv _ _ _ _ _ _ heq1 heq2]
        exact ⟨_, rfl, rfl, rfl, rfl⟩
  · intro E D ctx n0 nc sb a b r1 r2 hk h1 h2
    rw [ctr_driver_eq E D ctx n0 nc sb a hk] at h1
    split at h1
    · simp at h1
    · rename_i out1 ncf1 sbf1 nf1 gs1 e1 heq1
      cases h1
      dsimp only [] at h2
      rw [ctr_driver_eq E D { ctx with key_in_hardware := ctx.key_bytes }
        nf1 ncf1 sbf1 b (by rw [valid_key_length_update]; exact hk)] at h2
      split at h2
      · simp at h2
      · rename_i out2 ncf2 sbf2 nf2 gs2 e2 heq2
        cases h2
        rw [ctr_driver_eq E D ctx n0 nc sb (a ++ b) hk]
        rw [ctr_loop_append E _ a b n0 nc sb _ _ _ _ _ _ _ _ _ _ _ _ heq1
          heq2]
        exact ⟨_, rfl, rfl, rfl, rfl, rfl, rfl⟩
  · intro E D ctx n0 iv a b r1 r2 hk hn hn1 h1 h2
    rw [ofb_driver_eq E D ctx n0 iv a hn hk] at h1
    split at h1
    · simp at h1
    · rename_i out1 ivf1 nf1 gs1 e1 heq1
      cases h1
      dsimp only [] at h2 hn1
      rw [ofb_driver_eq E D { ctx with key_in_hardware := ctx.key_bytes }
        nf1 ivf1 b hn1 (by rw [valid_key_length_update]; exact hk)] at h2
      split at h2
      · simp at h2
      · rename_i out2 ivf2 nf2 gs2 e2 heq2
        cases h2
        rw [ofb_driver_eq E D ctx n0 iv (a ++ b) hn hk]
        rw [ofb_loop_append E _ a b n0 iv _ _ _ _ _ _ _ _ _ _ heq1 heq2]
        exact ⟨_, rfl, rfl, rfl, rfl, rfl⟩

/-- Witness for claim C5: concrete two-segment runs ([1,2] then [3], from
offset 15 where applicable) continue the stream exactly. -/
theorem claim_C5_streaming_continuation_witness :
    (∃ r3, esp_aes_crypt_cfb128 exaes exaes exCtx ESP_AES_DECRYPT 15 zeros16
        ([1, 2] ++ [3]) = some r3 ∧
      r3.output =
        (⟨.success, { exCtx with key_in_hardware := 16 },
          [2, 1, 1, 1, 1, 1, 1, 1, 1, 1, 1, 1, 1, 1, 1, 0], 1, [1, 3],
          [false, true], 0, true⟩ : StreamOut).output ++
        (⟨.success, { exCtx with key_in_hardware := 16 },
          [2, 3, 1, 1, 1, 1, 1, 1, 1, 1, 1, 1, 1, 1, 1, 0], 2, [2],
          [false], 0, true⟩ : StreamOut).output ∧
      r3.iv = (⟨.success, { exCtx with key_in_hardware := 16 },
          [2, 3, 1, 1, 1, 1, 1, 1, 1, 1, 1, 1, 1, 1, 1, 0], 2, [2],
          [false], 0, true⟩ : StreamOut).iv ∧
      r3.n = (⟨.success, { exCtx with key_in_hardware := 16 },
          [2, 3, 1, 1, 1, 1, 1, 1, 1, 1, 1, 1, 1, 1, 1, 0], 2, [2],
          [false], 0, true⟩ : StreamOut).n ∧
      r3.ctx = (⟨.success, { exCtx with key_in_hardware := 16 },
          [2, 3, 1, 1, 1, 1, 1, 1, 1, 1, 1, 1, 1, 1, 1, 0], 2, [2],
          [false], 0, true⟩ : StreamOut).ctx) ∧
    (∃ r3, esp_aes_crypt_cfb8 exaes exaes exCtx ESP_AES_DECRYPT zeros16
        ([1, 2] ++ [3]) = some r3 ∧
      r3.output =
        (⟨.success, { exCtx with key_in_hardware := 16 },
          [0, 0, 0, 0, 0, 0, 0, 0, 0, 0, 0, 0, 0, 0, 1, 2], [0, 3], 0,
          true⟩ : Cfb8Out).output ++
        (⟨.success, { exCtx with key_in_hardware := 16 },
          [0, 0, 0, 0, 0, 0, 0, 0, 0, 0, 0, 0, 0, 1, 2, 3], [2], 0,
          true⟩ : Cfb8Out).output ∧
      r3.iv = (⟨.success, { exCtx with key_in_hardware := 16 },
          [0, 0, 0, 0, 0, 0, 0, 0, 0, 0, 0, 0, 0, 1, 2, 3], [2], 0,
          true⟩ : Cfb8Out).iv ∧
      r3.ctx = (⟨.success, { exCtx with key_in_hardware := 16 },
          [0, 0, 0, 0, 0, 0, 0, 0, 0, 0, 0, 0, 0, 1, 2, 3], [2], 0,
          true⟩ : Cfb8Out).ctx) ∧
    (∃ r3, esp_aes_crypt_ctr exaes exaes exCtx 15 zeros16 zeros16
        ([1, 2] ++ [3]) = some r3 ∧
      r3.output =
        (⟨.success, { exCtx with key_in_hardware := 16 },
          [0, 0, 0, 0, 0, 0, 0, 0, 0, 0, 0, 0, 0, 0, 0, 1],
          List.replicate 16 1, 1, [1, 3], [false, true], 0,
          true⟩ : CtrOut).output ++
        (⟨.success, { exCtx with key_in_hardware := 16 },
          [0, 0, 0, 0, 0, 0, 0, 0, 0, 0, 0, 0, 0, 0, 0, 1],
          List.replicate 16 1, 2, [2], [false], 0, true⟩ : CtrOut).output ∧
      r3.nonce_counter =
        (⟨.success, { exCtx with key_in_hardware := 16 },
          [0, 0, 0, 0, 0, 0, 0, 0, 0, 0, 0, 0, 0, 0, 0, 1],
          List.replicate 16 1, 2, [2], [false], 0,
          true⟩ : CtrOut).nonce_counter ∧
      r3.stream_block =
        (⟨.success, { exCtx with key_in_hardware := 16 },
          [0, 0, 0, 0, 0, 0, 0, 0, 0, 0, 0, 0, 0, 0, 0, 1],
          List.replicate 16 1, 2, [2], [false], 0,
          true⟩ : CtrOut).stream_block ∧
      r3.n = (⟨.success, { exCtx with key_in_hardware := 16 },
          [0, 0, 0, 0, 0, 0, 0, 0, 0, 0, 0, 0, 0, 0, 0, 1],
          List.replicate 16 1, 2, [2], [false], 0, true⟩ : CtrOut).n ∧
      r3.ctx = (⟨.success, { exCtx with key_in_hardware := 16 },
          [0, 0, 0, 0, 0, 0, 0, 0, 0, 0, 0, 0, 0, 0, 0, 1],
          List.replicate 16 1, 2, [2], [false], 0, true⟩ : CtrOut).ctx) ∧
    (∃ r3, esp_aes_crypt_ofb exaes exaes (some exCtx) (some 15) (some zeros16)
        (some ([1, 2] ++ [3])) (some ()) = some r3 ∧
      r3.output =
        (⟨.success, { exCtx with key_in_hardware := 16 },
          List.replicate 16 1, 1, [1, 3], [false, true], 0,
          true⟩ : StreamOut).output ++
        (⟨.success, { exCtx with key_in_hardware := 16 },
          List.replicate 16 1, 2, [2], [false], 0, true⟩ : StreamOut).output ∧
      r3.iv = (⟨.success, { exCtx with key_in_hardware := 16 },
          List.replicate 16 1, 2, [2], [false], 0, true⟩ : StreamOut).iv ∧
      r3.n = (⟨.success, { exCtx with key_in_hardware := 16 },
          List.replicate 16 1, 2, [2], [false], 0, true⟩ : StreamOut).n ∧
      r3.ctx = (⟨.success, { exCtx with key_in_hardware := 16 },
          List.replicate 16 1, 2, [2], [false], 0, true⟩ : StreamOut).ctx) :=
  ⟨claim_C5_streaming_continuation.1 exaes exaes exCtx ESP_AES_DECRYPT 15
      zeros16 [1, 2] [3] _ _ (by decide) (by decide) (by decide),
   claim_C5_streaming_continuation.2.1 exaes exaes exCtx ESP_AES_DECRYPT
      zeros16 [1, 2] [3] _ _ (by decide) (by decide) (by decide),
   claim_C5_streaming_continuation.2.2.1 exaes exaes exCtx 15 zeros16 zeros16
      [1, 2] [3] _ _ (by decide) (by decide) (by decide),
   claim_C5_streaming_continuation.2.2.2 exaes exaes exCtx 15 zeros16 [1, 2]
      [3] _ _ (by decide) (by decide) (by decide) (by decide) (by decide)⟩

/-! ### Claim C1: encrypt/decrypt round trip in all six modes -/

lemma xor_swap_cancel (s b : Nat) : (s ^^^ b) ^^^ s = b := by
  rw [Nat.xor_comm s b]
  exact Nat.xor_cancel_right s b

lemma ctr_inc_rev_length : ∀ l : List Nat, (ctr_inc_rev l).length = l.length := by
  intro l
  induction l with
  | nil => rfl
  | cons b rest ih =>
    by_cases hb : (b + 1) % 256 = 0 <;> simp [ctr_inc_rev, hb, ih]

lemma ctr_inc_length (l : List Nat) : (ctr_inc l).length = l.length := by
  simp [ctr_inc, ctr_inc_rev_length]

lemma ofb_loop_rt (E : List Nat → List Nat) (ctx : esp_aes_context)
    (hk : ctx.key_in_hardware = ctx.key_bytes)
    (hE16 : ∀ bl : List Nat, bl.length = 16 → (E bl).length = 16)
    (hnfE : ∀ bl : List Nat, bl.length = 16 → E bl ≠ bl) :
    ∀ input n iv, iv.length = 16 →
      ∃ out ivf nf gs,
        ofb_loop E ctx input n iv = some (out, ivf, nf, gs, 0) ∧
        ofb_loop E ctx out n iv = some (input, ivf, nf, gs, 0) ∧
        ivf.length = 16 ∧ out.length = input.length := by
  intro input
  induction input with
  | nil =>
    intro n iv hiv
    exact ⟨[], iv, n, [], rfl, rfl, hiv, rfl⟩
  | cons b rest ih =>
    intro n iv hiv
    by_cases hn : n = 0
    · subst hn
      have hok := esp_aes_block_ok E ctx iv hk (hnfE iv hiv)
      obtain ⟨os, ivf, nf, gs, hA, hB, hL, hLen⟩ := ih 1 (E iv) (hE16 iv hiv)
      refine ⟨(b ^^^ (E iv).getD 0 0) :: os, ivf, nf, true :: gs, ?_, ?_, hL,
        by simp [hLen]⟩
      · rw [ofb_loop]
        simp only [hok, BlockRes.isAborted, BlockRes.out, BlockRes.isErr,
          if_pos rfl]
        simp [hA]
      · rw [ofb_loop]
        simp only [hok, BlockRes.isAborted, BlockRes.out, BlockRes.isErr,
          if_pos rfl]
        simp [hB, Nat.xor_cancel_right]
    · obtain ⟨os, ivf, nf, gs, hA, hB, hL, hLen⟩ := ih ((n + 1) &&& 15) iv hiv
      refine ⟨(b ^^^ iv.getD n 0) :: os, ivf, nf, false :: gs, ?_, ?_, hL,
        by simp [hLen]⟩
      · rw [ofb_loop]
        simp only [if_neg hn]
        simp [hA]
      · rw [ofb_loop]
        simp only [if_neg hn]
        simp [hB, Nat.xor_cancel_right]

lemma ctr_loop_rt (E : List Nat → List Nat) (ctx : esp_aes_context)
    (hk : ctx.key_in_hardware = ctx.key_bytes)
    (hE16 : ∀ bl : List Nat, bl.length = 16 → (E bl).length = 16)
    (hnfE : ∀ bl : List Nat, bl.length = 16 → E bl ≠ bl) :
    ∀ input n nc sb, nc.length = 16 →
      ∃ out ncf sbf nf gs,
        ctr_loop E ctx input n nc sb = some (out, ncf, sbf, nf, gs, 0) ∧
        ctr_loop E ctx out n nc sb = some (input, ncf, sbf, nf, gs, 0) ∧
        ncf.length = 16 ∧ out.length = input.length := by
  intro input
  induction input with
  | nil =>
    intro n nc sb hnc
    exact ⟨[], nc, sb, n, [], rfl, rfl, hnc, rfl⟩
  | cons b rest ih =>
    intro n nc sb hnc
    by_cases hn : n = 0
    · subst hn
      have hok := esp_aes_block_ok E ctx nc hk (hnfE nc hnc)
      obtain ⟨os, ncf, sbf, nf, gs, hA, hB, hL, hLen⟩ :=
        ih 1 (ctr_inc nc) (E nc) (by rw [ctr_inc_length]; exact hnc)
      refine ⟨(b ^^^ (E nc).getD 0 0) :: os, ncf, sbf, nf, true :: gs, ?_, ?_,
        hL, by simp [hLen]⟩
      · rw [ctr_loop]
        simp only [hok, BlockRes.isAborted, BlockRes.out, BlockRes.isErr,
          if_pos rfl]
        simp [hA]
      · rw [ctr_loop]
        simp only [hok, BlockRes.isAborted, BlockRes.out, BlockRes.isErr,
          if_pos rfl]
        simp [hB, Nat.xor_cancel_right]
    · obtain ⟨os, ncf, sbf, nf, gs, hA, hB, hL, hLen⟩ :=
        ih ((n + 1) &&& 15) nc sb hnc
      refine ⟨(b ^^^ sb.getD n 0) :: os, ncf, sbf, nf, false :: gs, ?_, ?_,
        hL, by simp [hLen]⟩
      · rw [ctr_loop]
        simp only [if_neg hn]
        simp [hA]
      · rw [ctr_loop]
        simp only [if_neg hn]
        simp [hB, Nat.xor_cancel_right]

lemma cfb128_loop_rt (E : List Nat → List Nat) (ctx : esp_aes_context)
    (hk : ctx.key_in_hardware = ctx.key_bytes)
    (hE16 : ∀ bl : List Nat, bl.length = 16 → (E bl).length = 16)
    (hnfE : ∀ bl : List Nat, bl.length = 16 → E bl ≠ bl) :
    ∀ input n iv, iv.length = 16 →
      ∃ out ivf nf gs,
        cfb128_enc_loop E ctx input n iv = some (out, ivf, nf, gs, 0) ∧
        cfb128_dec_loop E ctx out n iv = some (input, ivf, nf, gs, 0) ∧
        ivf.length = 16 ∧ out.length = input.length := by
  intro input
  induction input with
  | nil =>
    intro n iv hiv
    exact ⟨[], iv, n, [], rfl, rfl, hiv, rfl⟩
  | cons b rest ih =>
    intro n iv hiv
    by_cases hn : n = 0
    · subst hn
      have hok := esp_aes_block_ok E ctx iv hk (hnfE iv hiv)
      have h1 : ((E iv).set 0 ((E iv).getD 0 0 ^^^ b)).length = 16 := by
        rw [List.length_set]
        exact hE16 iv hiv
      obtain ⟨os, ivf, nf, gs, hA, hB, hL, hLen⟩ := ih 1 _ h1
      refine ⟨((E iv).getD 0 0 ^^^ b) :: os, ivf, nf, true :: gs, ?_, ?_, hL,
        by simp [hLen]⟩
      · rw [cfb128_enc_loop]
        simp only [hok, BlockRes.isAborted, BlockRes.out, BlockRes.isErr,
          eq_self_iff_true, if_true, Bool.false_eq_true, if_false,
          show (0 + 1) &&& 15 = 1 from by decide]
        try dsimp only []
        rw [hA]
        try simp
      · rw [cfb128_dec_loop]
        simp only [hok, BlockRes.isAborted, BlockRes.out, BlockRes.isErr,
          eq_self_iff_true, if_true, Bool.false_eq_true, if_false,
          show (0 + 1) &&& 15 = 1 from by decide]
        try dsimp only []
        rw [hB]
        try simp [xor_swap_cancel]
    · have h1 : (iv.set n (iv.getD n 0 ^^^ b)).length = 16 := by
        rw [List.length_set]
        exact hiv
      obtain ⟨os, ivf, nf, gs, hA, hB, hL, hLen⟩ := ih ((n + 1) &&& 15) _ h1
      refine ⟨(iv.getD n 0 ^^^ b) :: os, ivf, nf, false :: gs, ?_, ?_, hL,
        by simp [hLen]⟩
      · rw [cfb128_enc_loop]
        simp only [if_neg hn]
        try dsimp only []
        rw [hA]
        try simp
      · rw [cfb128_dec_loop]
        simp only [if_neg hn]
        try dsimp only []
        rw [hB]
        try simp [xor_swap_cancel]

lemma cfb8_loop_rt (E : List Nat → List Nat) (ctx : esp_aes_context)
    (hk : ctx.key_in_hardware = ctx.key_bytes)
    (hE16 : ∀ bl : List Nat, bl.length = 16 → (E bl).length = 16)
    (hnfE : ∀ bl : List Nat, bl.length = 16 → E bl ≠ bl) :
    ∀ input iv, iv.length = 16 →
      ∃ out ivf,
        cfb8_loop E ctx ESP_AES_ENCRYPT input iv = some (out, ivf, 0) ∧
        cfb8_loop E ctx ESP_AES_DECRYPT out iv = some (input, ivf, 0) ∧
        ivf.length = 16 ∧ out.length = input.length := by
  intro input
  induction input with
  | nil =>
    intro iv hiv
    exact ⟨[], iv, rfl, rfl, hiv, rfl⟩
  | cons b rest ih =>
    intro iv hiv
    have hok := esp_aes_block_ok E ctx iv hk (hnfE iv hiv)
    have h1 : (iv.drop 1 ++ [(E iv).getD 0 0 ^^^ b]).length = 16 := by
      simp [hiv]
    obtain ⟨os, ivf, hA, hB, hL, hLen⟩ := ih _ h1
    refine ⟨((E iv).getD 0 0 ^^^ b) :: os, ivf, ?_, ?_, hL, by simp [hLen]⟩
    · rw [cfb8_loop]
      simp only [hok, BlockRes.isAborted, BlockRes.out, BlockRes.isErr,
        show (ESP_AES_ENCRYPT == ESP_AES_DECRYPT) = false from rfl,
        Bool.false_eq_true, if_false]
      try dsimp only []
      rw [hA]
      try simp
    · rw [cfb8_loop]
      simp only [hok, BlockRes.isAborted, BlockRes.out, BlockRes.isErr,
        show (ESP_AES_DECRYPT == ESP_AES_DECRYPT) = true from rfl, if_true,
        Bool.false_eq_true, if_false]
      try dsimp only []
      rw [hB]
      try simp [xor_swap_cancel, Nat.xor_cancel_left]

lemma take_len_append (l1 l2 : List Nat) (n : Nat) (h : l1.length = n) :
    (l1 ++ l2).take n = l1 := by
  subst h
  exact List.take_left l1 l2

lemma drop_len_append (l1 l2 : List Nat) (n : Nat) (h : l1.length = n) :
    (l1 ++ l2).drop n = l2 := by
  subst h
  exact List.drop_left l1 l2

lemma cbc_loop_rt (E D : List Nat → List Nat) (ctx : esp_aes_context)
    (hk : ctx.key_in_hardware = ctx.key_bytes)
    (hE16 : ∀ bl : List Nat, bl.length = 16 → (E bl).length = 16)
    (hinv : ∀ bl : List Nat, bl.length = 16 → D (E bl) = bl)
    (hnfE : ∀ bl : List Nat, bl.length = 16 → E bl ≠ bl) :
    ∀ k input iv, iv.length = 16 → input.length = 16 * k →
      ∃ ct ivf,
        cbc_enc_loop E ctx k input iv = some (ct, ivf, 0) ∧
        cbc_dec_loop D ctx k ct iv = some (input, ivf, 0) ∧
        ct.length = 16 * k ∧ ivf.length = 16 := by
  intro k
  induction k with
  | zero =>
    intro input iv hiv hlen
    have hnil : input = [] := List.eq_nil_of_length_eq_zero (by omega)
    subst hnil
    exact ⟨[], iv, rfl, rfl, rfl, hiv⟩
  | succ k ih =>
    intro input iv hiv hlen
    have htake : (input.take 16).length = 16 := by
      simp only [List.length_take]
      omega
    have hxlen : (xor_block (input.take 16) iv).length = 16 := by
      rw [xor_block_length, htake, hiv, Nat.min_self]
    have hokE := esp_aes_block_ok E ctx (xor_block (input.take 16) iv) hk
      (hnfE _ hxlen)
    have hc16 : (E (xor_block (input.take 16) iv)).length = 16 := hE16 _ hxlen
    obtain ⟨ct', ivf, hA, hB, hctlen, hivf⟩ :=
      ih (input.drop 16) (E (xor_block (input.take 16) iv)) hc16
        (by simp only [List.length_drop]; omega)
    have htake2 : (E (xor_block (input.take 16) iv) ++ ct').take 16 =
        E (xor_block (input.take 16) iv) :=
      take_len_append _ _ 16 hc16
    have hdrop2 : (E (xor_block (input.take 16) iv) ++ ct').drop 16 = ct' :=
      drop_len_append _ _ 16 hc16
    have hokD : esp_aes_block D ctx (E (xor_block (input.take 16) iv)) =
        .ok (xor_block (input.take 16) iv) := by
      have hDval := hinv _ hxlen
      have hne : D (E (xor_block (input.take 16) iv)) ≠
          E (xor_block (input.take 16) iv) := by
        rw [hDval]
        intro hEq
        exact hnfE _ hxlen hEq.symm
      have hblk := esp_aes_block_ok D ctx (E (xor_block (input.take 16) iv))
        hk hne
      rw [hDval] at hblk
      exact hblk
    refine ⟨E (xor_block (input.take 16) iv) ++ ct', ivf, ?_, ?_, ?_, hivf⟩
    · rw [cbc_enc_loop]
      simp only [hokE, BlockRes.isAborted, BlockRes.out, BlockRes.isErr]
      simp [hA]
    · rw [cbc_dec_loop]
      simp only [htake2, hdrop2, hokD, BlockRes.isAborted, BlockRes.out,
        BlockRes.isErr]
      simp [hB, xor_block_cancel (input.take 16) iv (htake.trans hiv.symm),
        List.take_append_drop]
    · simp only [List.length_append, hc16, hctlen]
      omega

/-- Claim C1: for every valid key length, with the hardware block transform
modelled as a keyed permutation `E`/`D` (length-preserving, `D` inverting
`E`, and fixed-point-free, so the fault sentinel never fires), decrypting
the result of encryption with the same key and the same initial chaining
state yields the original plaintext in all six modes: ECB (one block),
CBC (block-multiple lengths), CFB128, CFB8, CTR and OFB (arbitrary lengths,
offset 0). -/
theorem claim_C1_round_trip (E D : List Nat → List Nat)
    (ctx : esp_aes_context) (hk : valid_key_length ctx = true)
    (hE16 : ∀ bl : List Nat, bl.length = 16 → (E bl).length = 16)
    (hinv : ∀ bl : List Nat, bl.length = 16 → D (E bl) = bl)
    (hnfE : ∀ bl : List Nat, bl.length = 16 → E bl ≠ bl) :
    (∀ pt : List Nat, pt.length = 16 →
      ∃ r1 r2, esp_aes_crypt_ecb E D ctx ESP_AES_ENCRYPT pt = some r1 ∧
        r1.ret = .success ∧
        esp_aes_crypt_ecb E D ctx ESP_AES_DECRYPT r1.output = some r2 ∧
        r2.ret = .success ∧ r2.output = pt) ∧
    (∀ pt iv : List Nat, iv.length = 16 → pt.length % 16 = 0 →
      ∃ r1 r2, esp_aes_crypt_cbc E D ctx ESP_AES_ENCRYPT iv pt [] = some r1 ∧
        r1.ret = .success ∧
        esp_aes_crypt_cbc E D ctx ESP_AES_DECRYPT iv r1.output [] = some r2 ∧
        r2.ret = .success ∧ r2.output = pt) ∧
    (∀ pt iv : List Nat, iv.length = 16 →
      ∃ r1 r2, esp_aes_crypt_cfb128 E D ctx ESP_AES_ENCRYPT 0 iv pt =
          some r1 ∧
        r1.ret = .success ∧
        esp_aes_crypt_cfb128 E D ctx ESP_AES_DECRYPT 0 iv r1.output =
          some r2 ∧
        r2.ret = .success ∧ r2.output = pt) ∧
    (∀ pt iv : List Nat, iv.length = 16 →
      ∃ r1 r2, esp_aes_crypt_cfb8 E D ctx ESP_AES_ENCRYPT iv pt = some r1 ∧
        r1.ret = .success ∧
        esp_aes_crypt_cfb8 E D ctx ESP_AES_DECRYPT iv r1.output = some r2 ∧
        r2.ret = .success ∧ r2.output = pt) ∧
    (∀ pt nc sb : List Nat, nc.length = 16 →
      ∃ r1 r2, esp_aes_crypt_ctr E D ctx 0 nc sb pt = some r1 ∧
        r1.ret = .success ∧
        esp_aes_crypt_ctr E D ctx 0 nc sb r1.output = some r2 ∧
        r2.ret = .success ∧ r2.output = pt) ∧
    (∀ pt iv : List Nat, iv.length = 16 →
      ∃ r1 r2, esp_aes_crypt_ofb E D (some ctx) (some 0) (some iv) (some pt)
          (some ()) = some r1 ∧
        r1.ret = .success ∧
        esp_aes_crypt_ofb E D (some ctx) (some 0) (some iv) (some r1.output)
          (some ()) = some r2 ∧
        r2.ret = .success ∧ r2.output = pt) := by
  have hctxH : ({ ctx with key_in_hardware := ctx.key_bytes } :
      esp_aes_context).key_in_hardware =
      ({ ctx with key_in_hardware := ctx.key_bytes } :
        esp_aes_context).key_bytes := rfl
  refine ⟨?_, ?_, ?_, ?_, ?_, ?_⟩
  · intro pt hpt
    have hokE := esp_aes_block_ok E { ctx with key_in_hardware := ctx.key_bytes }
      pt hctxH (hnfE pt hpt)
    have hne : D (E pt) ≠ E pt := by
      rw [hinv pt hpt]
      intro hEq
      exact hnfE pt hpt hEq.symm
    have hokD := esp_aes_block_ok D { ctx with key_in_hardware := ctx.key_bytes }
      (E pt) hctxH hne
    rw [hinv pt hpt] at hokD
    have h1 : esp_aes_crypt_ecb E D ctx ESP_AES_ENCRYPT pt =
        some ⟨.success, { ctx with key_in_hardware := ctx.key_bytes }, E pt,
          true⟩ := by
      rw [ecb_driver_eq E D ctx ESP_AES_ENCRYPT pt hk]
      simp only [show ((ESP_AES_ENCRYPT == ESP_AES_ENCRYPT) = true) from rfl,
        if_true, hokE]
    have h2 : esp_aes_crypt_ecb E D ctx ESP_AES_DECRYPT (E pt) =
        some ⟨.success, { ctx with key_in_hardware := ctx.key_bytes }, pt,
          true⟩ := by
      rw [ecb_driver_eq E D ctx ESP_AES_DECRYPT (E pt) hk]
      simp only [show ((ESP_AES_DECRYPT == ESP_AES_ENCRYPT) = false) from rfl,
        Bool.false_eq_true, if_false, hokD]
    exact ⟨_, _, h1, rfl, h2, rfl, rfl⟩
  · intro pt iv hiv hlen
    obtain ⟨ct, ivf, hA, hB, hctlen, hivf⟩ := cbc_loop_rt E D
      { ctx with key_in_hardware := ctx.key_bytes } rfl hE16 hinv hnfE
      (pt.length / 16) pt iv hiv (by omega)
    have h1 : esp_aes_crypt_cbc E D ctx ESP_AES_ENCRYPT iv pt [] =
        some ⟨.success, { ctx with key_in_hardware := ctx.key_bytes }, ivf,
          ct ++ List.drop pt.length [], pt.length / 16, 0, true⟩ := by
      rw [cbc_driver_eq E D ctx ESP_AES_ENCRYPT iv pt [] hlen hk]
      simp only [show ((ESP_AES_ENCRYPT == ESP_AES_DECRYPT) = false) from rfl,
        show ((ESP_AES_ENCRYPT == ESP_AES_ENCRYPT) = true) from rfl,
        Bool.false_eq_true, if_false, if_true, hA]
    have hctmod : ct.length % 16 = 0 := by omega
    have hctdiv : ct.length / 16 = pt.length / 16 := by omega
    have hB' : cbc_dec_loop D { ctx with key_in_hardware := ctx.key_bytes }
        (ct.length / 16) ct iv = some (pt, ivf, 0) := by
      rw [hctdiv]
      exact hB
    have h2 : esp_aes_crypt_cbc E D ctx ESP_AES_DECRYPT iv ct [] =
        some ⟨.success, { ctx with key_in_hardware := ctx.key_bytes }, ivf,
          pt ++ List.drop ct.length [], ct.length / 16, 0, true⟩ := by
      rw [cbc_driver_eq E D ctx ESP_AES_DECRYPT iv ct [] hctmod hk]
      simp only [show ((ESP_AES_DECRYPT == ESP_AES_DECRYPT) = true) from rfl,
        show ((ESP_AES_DECRYPT == ESP_AES_ENCRYPT) = false) from rfl,
        Bool.false_eq_true, if_false, if_true, hB']
    refine ⟨⟨.success, { ctx with key_in_hardware := ctx.key_bytes }, ivf,
        ct ++ List.drop pt.length [], pt.length / 16, 0, true⟩,
      ⟨.success, { ctx with key_in_hardware := ctx.key_bytes }, ivf,
        pt ++ List.drop ct.length [], ct.length / 16, 0, true⟩,
      h1, rfl, ?_, rfl, ?_⟩
    · dsimp only []
      rw [show ct ++ List.drop pt.length [] = ct by simp]
      exact h2
    · dsimp only []
      simp
  · intro pt iv hiv
    obtain ⟨out, ivf, nf, gs, hA, hB, hL, hLen⟩ := cfb128_loop_rt E
      { ctx with key_in_hardware := ctx.key_bytes } rfl hE16 hnfE pt 0 iv hiv
    have h1 : esp_aes_crypt_cfb128 E D ctx ESP_AES_ENCRYPT 0 iv pt =
        some ⟨.success, { ctx with key_in_hardware := ctx.key_bytes }, ivf,
          nf, out, gs, 0, true⟩ := by
      rw [cfb128_driver_eq E D ctx ESP_AES_ENCRYPT 0 iv pt hk]
      simp only [show ((ESP_AES_ENCRYPT == ESP_AES_DECRYPT) = false) from rfl,
        Bool.false_eq_true, if_false, hA]
    have h2 : esp_aes_crypt_cfb128 E D ctx ESP_AES_DECRYPT 0 iv out =
        some ⟨.success, { ctx with key_in_hardware := ctx.key_bytes }, ivf,
          nf, pt, gs, 0, true⟩ := by
      rw [cfb128_driver_eq E D ctx ESP_AES_DECRYPT 0 iv out hk]
      simp only [show ((ESP_AES_DECRYPT == ESP_AES_DECRYPT) = true) from rfl,
        if_true, hB]
    exact ⟨_, _, h1, rfl, h2, rfl, rfl⟩
  · intro pt iv hiv
    obtain ⟨out, ivf, hA, hB, hL, hLen⟩ := cfb8_loop_rt E
      { ctx with key_in_hardware := ctx.key_bytes } rfl hE16 hnfE pt iv hiv
    have h1 : esp_aes_crypt_cfb8 E D ctx ESP_AES_ENCRYPT iv pt =
        some ⟨.success, { ctx with key_in_hardware := ctx.key_bytes }, ivf,
          out, 0, true⟩ := by
      rw [cfb8_driver_eq E D ctx ESP_AES_ENCRYPT iv pt hk]
      simp only [hA]
    have h2 : esp_aes_crypt_cfb8 E D ctx ESP_AES_DECRYPT iv out =
        some ⟨.success, { ctx with key_in_hardware := ctx.key_bytes }, ivf,
          pt, 0, true⟩ := by
      rw [cfb8_driver_eq E D ctx ESP_AES_DECRYPT iv out hk]
      simp only [hB]
    exact ⟨_, _, h1, rfl, h2, rfl, rfl⟩
  · intro pt nc sb hnc
    obtain ⟨out, ncf, sbf, nf, gs, hA, hB, hL, hLen⟩ := ctr_loop_rt E
      { ctx with key_in_hardware := ctx.key_bytes } rfl hE16 hnfE pt 0 nc sb
      hnc
    have h1 : esp_aes_crypt_ctr E D ctx 0 nc sb pt =
        some ⟨.success, { ctx with key_in_hardware := ctx.key_bytes }, ncf,
          sbf, nf, out, gs, 0, true⟩ := by
      rw [ctr_driver_eq E D ctx 0 nc sb pt hk]
      simp only [hA]
    have h2 : esp_aes_crypt_ctr E D ctx 0 nc sb out =
        some ⟨.success, { ctx with key_in_hardware := ctx.key_bytes }, ncf,
          sbf, nf, pt, gs, 0, true⟩ := by
      rw [ctr_driver_eq E D ctx 0 nc sb out hk]
      simp only [hB]
    exact ⟨_, _, h1, rfl, h2, rfl, rfl⟩
  · intro pt iv hiv
    obtain ⟨out, ivf, nf, gs, hA, hB, hL, hLen⟩ := ofb_loop_rt E
      { ctx with key_in_hardware := ctx.key_bytes } rfl hE16 hnfE pt 0 iv hiv
    have h1 : esp_aes_crypt_ofb E D (some ctx) (some 0) (some iv) (some pt)
        (some ()) =
        some ⟨.success, { ctx with key_in_hardware := ctx.key_bytes }, ivf,
          nf, out, gs, 0, true⟩ := by
      rw [ofb_driver_eq E D ctx 0 iv pt (by omega) hk]
      simp only [hA]
    have h2 : esp_aes_crypt_ofb E D (some ctx) (some 0) (some iv) (some out)
        (some ()) =
        some ⟨.success, { ctx with key_in_hardware := ctx.key_bytes }, ivf,
          nf, pt, gs, 0, true⟩ := by
      rw [ofb_driver_eq E D ctx 0 iv out (by omega) hk]
      simp only [hB]
    exact ⟨_, _, h1, rfl, h2, rfl, rfl⟩

lemma exaes_length16 : ∀ bl : List Nat, bl.length = 16 →
    (exaes bl).length = 16 := by
  intro bl h
  rw [exaes_length]
  exact h

/-- Witness for claim C1: concrete round trips through all six modes with the
bit-flip permutation as the keyed block transform. -/
theorem claim_C1_round_trip_witness :
    (∃ r1 r2, esp_aes_crypt_ecb exaes exaes exCtx ESP_AES_ENCRYPT zeros16 =
        some r1 ∧ r1.ret = .success ∧
      esp_aes_crypt_ecb exaes exaes exCtx ESP_AES_DECRYPT r1.output =
        some r2 ∧ r2.ret = .success ∧ r2.output = zeros16) ∧
    (∃ r1 r2, esp_aes_crypt_cbc exaes exaes exCtx ESP_AES_ENCRYPT zeros16
        (List.replicate 32 7) [] = some r1 ∧ r1.ret = .success ∧
      esp_aes_crypt_cbc exaes exaes exCtx ESP_AES_DECRYPT zeros16 r1.output
        [] = some r2 ∧ r2.ret = .success ∧ r2.output = List.replicate 32 7) ∧
    (∃ r1 r2, esp_aes_crypt_cfb128 exaes exaes exCtx ESP_AES_ENCRYPT 0 zeros16
        [1, 2, 3] = some r1 ∧ r1.ret = .success ∧
      esp_aes_crypt_cfb128 exaes exaes exCtx ESP_AES_DECRYPT 0 zeros16
        r1.output = some r2 ∧ r2.ret = .success ∧ r2.output = [1, 2, 3]) ∧
    (∃ r1 r2, esp_aes_crypt_cfb8 exaes exaes exCtx ESP_AES_ENCRYPT zeros16
        [4, 5] = some r1 ∧ r1.ret = .success ∧
      esp_aes_crypt_cfb8 exaes exaes exCtx ESP_AES_DECRYPT zeros16 r1.output =
        some r2 ∧ r2.ret = .success ∧ r2.output = [4, 5]) ∧
    (∃ r1 r2, esp_aes_crypt_ctr exaes exaes exCtx 0 zeros16 zeros16 [6] =
        some r1 ∧ r1.ret = .success ∧
      esp_aes_crypt_ctr exaes exaes exCtx 0 zeros16 zeros16 r1.output =
        some r2 ∧ r2.ret = .success ∧ r2.output = [6]) ∧
    (∃ r1 r2, esp_aes_crypt_ofb exaes exaes (some exCtx) (some 0)
        (some zeros16) (some [7, 8]) (some ()) = some r1 ∧
      r1.ret = .success ∧
      esp_aes_crypt_ofb exaes exaes (some exCtx) (some 0) (some zeros16)
        (some r1.output) (some ()) = some r2 ∧
      r2.ret = .success ∧ r2.output = [7, 8]) :=
  have T := claim_C1_round_trip exaes exaes exCtx (by decide) exaes_length16
    (fun bl _ => exaes_exaes bl) exaes_ne
  ⟨T.1 zeros16 (by decide),
   T.2.1 (List.replicate 32 7) zeros16 (by decide) (by decide),
   T.2.2.1 [1, 2, 3] zeros16 (by decide),
   T.2.2.2.1 [4, 5] zeros16 (by decide),
   T.2.2.2.2.1 [6] zeros16 zeros16 (by decide),
   T.2.2.2.2.2 [7, 8] zeros16 (by decide)⟩

/-! ### Claim C4: CTR counter increment semantics -/

lemma leVal_lt : ∀ l : List Nat, (∀ x ∈ l, x < 256) →
    leVal l < 256 ^ l.length := by
  intro l
  induction l with
  | nil =>
    intro _
    simp [leVal]
  | cons b rest ih =>
    intro hb
    have h1 : b < 256 := hb b (by simp)
    have h2 := ih (fun x hx => hb x (by simp [hx]))
    have h3 : (256 : Nat) ^ (b :: rest).length = 256 * 256 ^ rest.length := by
      rw [List.length_cons, pow_succ]
      ring
    rw [leVal, h3]
    omega

lemma leVal_inc_rev : ∀ l : List Nat, (∀ x ∈ l, x < 256) →
    leVal (ctr_inc_rev l) = (leVal l + 1) % 256 ^ l.length := by
  intro l
  induction l with
  | nil =>
    intro _
    simp [ctr_inc_rev, leVal]
  | cons b rest ih =>
    intro hb
    have hblt : b < 256 := hb b (by simp)
    have hpow : (256 : Nat) ^ (b :: rest).length =
        256 ^ rest.length * 256 := by
      rw [List.length_cons, pow_succ]
    by_cases hb1 : (b + 1) % 256 = 0
    · have hb255 : b = 255 := by omega
      rw [ctr_inc_rev]
      simp only [hb1, if_true, eq_self_iff_true, ite_true]
      rw [leVal, ih (fun x hx => hb x (by simp [hx]))]
      subst hb255
      rw [leVal]
      have harith : 255 + 256 * leVal rest + 1 = 256 * (leVal rest + 1) := by
        ring
      rw [harith, hpow, Nat.mul_comm (256 ^ rest.length) 256,
        Nat.mul_mod_mul_left]
      omega
    · rw [ctr_inc_rev]
      simp only [hb1, if_false, ite_false]
      have hlt : b + 1 < 256 := by omega
      have hL := leVal_lt rest (fun x hx => hb x (by simp [hx]))
      have hlt2 : b + 256 * leVal rest + 1 < 256 ^ (b :: rest).length := by
        rw [hpow]
        omega
      rw [leVal, leVal, Nat.mod_eq_of_lt hlt2, Nat.mod_eq_of_lt hlt]
      omega

/-- The C counter-increment loop computes the big-endian increment of the
16-byte counter modulo `2^128`. -/
lemma beVal_ctr_inc (c : List Nat) (hlen : c.length = 16)
    (hb : ∀ x ∈ c, x < 256) :
    beVal (ctr_inc c) = (beVal c + 1) % 256 ^ 16 := by
  rw [beVal, ctr_inc, List.reverse_reverse, beVal]
  rw [leVal_inc_rev c.reverse (fun x hx => hb x (List.mem_reverse.mp hx))]
  rw [List.length_reverse, hlen]

lemma count_gens (L : Nat) :
    ((List.range L).map (fun i => decide ((0 + i) % 16 = 0))).count true =
      (L + 15) / 16 := by
  induction L with
  | zero => rfl
  | succ L ih =>
    rw [List.range_succ, List.map_append, List.count_append, ih]
    by_cases hL : L % 16 = 0
    · simp [hL]
      omega
    · simp [hL]
      omega

/-- Claim C4: the CTR counter is incremented as a big-endian 128-bit integer
(`beVal (ctr_inc nc) = (beVal nc + 1) mod 2^128`, which carries leftward
through 0xFF bytes), and a call starting at offset 0 increments it exactly
once per 16 consumed keystream bytes: `⌈length/16⌉` times in total. -/
theorem claim_C4_ctr_counter (E D : List Nat → List Nat)
    (ctx : esp_aes_context) (hk : valid_key_length ctx = true)
    (nc sb input : List Nat) (hnc16 : nc.length = 16)
    (hncb : ∀ x ∈ nc, x < 256) (r : CtrOut)
    (hr : esp_aes_crypt_ctr E D ctx 0 nc sb input = some r) :
    beVal (ctr_inc nc) = (beVal nc + 1) % 256 ^ 16 ∧
    r.nonce_counter = ctr_inc^[(input.length + 15) / 16] nc := by
  refine ⟨beVal_ctr_inc nc hnc16 hncb, ?_⟩
  rw [ctr_driver_eq E D ctx 0 nc sb input hk] at hr
  split at hr
  · simp at hr
  · rename_i out ncf sbf nf gs e heq
    cases hr
    obtain ⟨-, h2, h3⟩ :=
      ctr_loop_state _ _ _ _ _ _ _ _ _ _ _ _ (by omega) heq
    dsimp only []
    rw [h3, h2, count_gens]

/-- Witness for claim C4: a 32-byte CTR run from a counter ending in 0xFF
carries into the second-to-last byte and increments exactly twice. -/
theorem claim_C4_ctr_counter_witness :
    beVal (ctr_inc (List.replicate 15 0 ++ [255])) =
      (beVal (List.replicate 15 0 ++ [255]) + 1) % 256 ^ 16 ∧
    (⟨.success, { exCtx with key_in_hardware := 16 },
      [0, 0, 0, 0, 0, 0, 0, 0, 0, 0, 0, 0, 0, 0, 1, 1],
      [1, 1, 1, 1, 1, 1, 1, 1, 1, 1, 1, 1, 1, 1, 0, 1], 0,
      List.replicate 15 1 ++ [254] ++ (List.replicate 14 1 ++ [0, 1]),
      [true] ++ List.replicate 15 false ++ ([true] ++ List.replicate 15 false),
      0, true⟩ : CtrOut).nonce_counter =
      ctr_inc^[((List.replicate 32 0 : List Nat).length + 15) / 16]
        (List.replicate 15 0 ++ [255]) :=
  claim_C4_ctr_counter exaes exaes exCtx (by decide)
    (List.replicate 15 0 ++ [255]) zeros16 (List.replicate 32 0) (by decide)
    (by decide) _ (by decide)

end EspAes
